import Mathlib

/-!
Verification of the template rendering engine of `loseyco/smbsites`
(`src/generator/template-engine.js`).

The file contains a shallow embedding of the two complete JavaScript
definitions of `renderTemplate` found in that file (they share the
`isTruthy` helper, the `getNestedValue` resolver, the loop-expansion
pass, both indexed-array passes, the simple-placeholder pass and the
final cleanup pass verbatim; they differ only in the conditional
phase), followed by theorems settling the specification's claims.

Modelling conventions:
  * JavaScript values are the inductive type `TE.Value`; numbers are
    modelled as integers (the engine only ever compares with `0` and
    stringifies, no fractional arithmetic occurs anywhere in it).
  * Strings are processed as `List Char`.  Each global regex
    replacement is a left-to-right scanner that finds the leftmost
    match, splices the replacement, and continues after the match
    without rescanning the replacement, exactly like
    `String.prototype.replace` with a `g` flag.  Scanners carry a
    fuel argument; every call site passes `length + 1`, which is
    sufficient because every pattern consumes at least two characters.
  * The JavaScript `in` operator and property reads are modelled on
    data properties: object keys, and for arrays the valid indices and
    `length` (all own properties of JS arrays).  Inherited prototype
    members (`toString`, …) are not modelled; theorems quantifying
    over segment names stay inside the data-only region, for mappings
    via the explicit `jsProtoKey` exclusion.
  * Property access `item[prop]` throws a `TypeError` in JavaScript
    when `item` is `null` or `undefined`; the embedding mirrors this
    with `Except Unit`, so `renderTemplate` returns
    `Except Unit String`.
-/

namespace TE

/-- JavaScript values as produced by the scraper / places synthesizer:
strings, numbers, booleans, null, the undefined sentinel, arrays and
plain objects. -/
inductive Value where
  | vUndefined : Value
  | vNull : Value
  | vBool : Bool → Value
  | vNum : Int → Value
  | vStr : String → Value
  | vArr : List Value → Value
  | vObj : List (String × Value) → Value

/-- JS `\w` character class: `[A-Za-z0-9_]`. -/
def isWordChar (c : Char) : Bool :=
  c.isAlphanum || c = '_'

/-- JS `\s` character class (the ASCII part actually reachable from the
engine's templates). -/
def isSpaceChar (c : Char) : Bool :=
  c = ' ' || c = '\t' || c = '\n' || c = '\r' || c = '\x0b' || c = '\x0c'

/-- JS `\d` character class. -/
def isDigitChar (c : Char) : Bool :=
  '0' ≤ c && c ≤ '9'

/-- Greedy run of word characters (`\w+` never backtracks in the
engine's patterns because every following literal is a non-word
character). -/
def takeWord : List Char → List Char × List Char
  | [] => ([], [])
  | c :: t =>
    if isWordChar c then
      let p := takeWord t
      (c :: p.1, p.2)
    else ([], c :: t)

/-- Greedy run of whitespace characters (`\s+`). -/
def takeSpaces : List Char → List Char × List Char
  | [] => ([], [])
  | c :: t =>
    if isSpaceChar c then
      let p := takeSpaces t
      (c :: p.1, p.2)
    else ([], c :: t)

/-- Greedy run of digits (`\d+`). -/
def takeDigits : List Char → List Char × List Char
  | [] => ([], [])
  | c :: t =>
    if isDigitChar c then
      let p := takeDigits t
      (c :: p.1, p.2)
    else ([], c :: t)

/-- Strip a literal pattern from the front of a string. -/
def stripPre : List Char → List Char → Option (List Char)
  | [], s => some s
  | _ :: _, [] => none
  | p :: pt, c :: ct => if c = p then stripPre pt ct else none

/-- Split at the first occurrence of `pat`: returns the text before the
occurrence and the text after it (the lazy `[\s\S]*?pat` idiom). -/
def splitFirst (pat : List Char) : List Char → Option (List Char × List Char)
  | [] =>
    match stripPre pat [] with
    | some rest => some ([], rest)
    | none => none
  | c :: t =>
    match stripPre pat (c :: t) with
    | some rest => some ([], rest)
    | none =>
      match splitFirst pat t with
      | some p => some (c :: p.1, p.2)
      | none => none

/-- JS `String.prototype.includes`. -/
def containsSub (s pat : List Char) : Bool :=
  (splitFirst pat s).isSome

/-- Decimal value of a digit run (JS `parseInt` on a `\d+` capture). -/
def natOfDigits (ds : List Char) : Nat :=
  ds.foldl (fun acc c => acc * 10 + (c.toNat - '0'.toNat)) 0

/-- The engine's truthiness helper, `isTruthy` in the source (defined
identically in both copies of `renderTemplate`):

    if (value === null || value === undefined || value === '') return false;
    if (Array.isArray(value)) return value.length > 0;
    return true;
-/
def isTruthy : Value → Bool
  | .vNull => false
  | .vUndefined => false
  | .vStr s => !(s == "")
  | .vArr xs => !xs.isEmpty
  | .vBool _ => true
  | .vNum _ => true
  | .vObj _ => true

/-- Native JavaScript falsiness (the `!obj`, `value &&` and `x || ''`
idioms): `null`, `undefined`, `''`, `0` and `false` are falsy. -/
def jsFalsy : Value → Bool
  | .vNull => true
  | .vUndefined => true
  | .vStr s => s == ""
  | .vNum n => n == 0
  | .vBool b => !b
  | .vArr _ => false
  | .vObj _ => false

/-- First binding for a key in an object's own-property list. -/
def keyLookup : List (String × Value) → String → Option Value
  | [], _ => none
  | (k, v) :: rest, key => if k == key then some v else keyLookup rest key

/-- `typeof value === 'object' && value`: a truthy object, i.e. a plain
object or an array (JS `typeof null === 'object'` is excluded by the
truthiness conjunct in the source's condition). -/
def isObjLike : Value → Bool
  | .vObj _ => true
  | .vArr _ => true
  | _ => false

/-- The JS `part in value` test, modelled on the value's data
properties: object keys; for arrays the canonical index strings
`"0" … "len-1"` and `"length"` (all own properties of a JS array
instance).  JavaScript's `in` additionally walks the prototype chain
and accepts inherited member names (`toString`, `constructor`,
`slice`, …), whose values are built-in functions outside the document
value universe; this data-only model omits them, so every theorem that
quantifies over segment names confines itself to non-inherited names
(for mappings, via the explicit `jsProtoKey` exclusion). -/
def hasProp : Value → String → Bool
  | .vObj kvs, p => (keyLookup kvs p).isSome
  | .vArr xs, p => p == "length" || (List.range xs.length).any (fun i => toString i == p)
  | _, _ => false

/-- Own-property read `value[part]` for a value already known to pass
`hasProp` (objects and arrays only — `getNestedValue` guards with
`isObjLike`). -/
def getOwn : Value → String → Value
  | .vObj kvs, p => (keyLookup kvs p).getD .vUndefined
  | .vArr xs, p =>
    if p == "length" then .vNum xs.length
    else
      match (List.range xs.length).find? (fun i => toString i == p) with
      | some i => xs.getD i .vUndefined
      | none => .vUndefined
  | _, _ => .vUndefined

/-- The walking loop of `getNestedValue`:

    for (const part of parts) {
        if (value && typeof value === 'object' && part in value) {
            value = value[part];
        } else {
            return undefined;
        }
    }
-/
def walkParts : Value → List String → Value
  | v, [] => v
  | v, p :: ps =>
    if isObjLike v && hasProp v p then walkParts (getOwn v p) ps
    else .vUndefined

/-- Split a character list at every `'.'`, keeping empty segments. -/
def splitAtDots : List Char → List (List Char)
  | [] => [[]]
  | '.' :: t => [] :: splitAtDots t
  | c :: t =>
    match splitAtDots t with
    | [] => [[c]]
    | g :: gs => (c :: g) :: gs

/-- JS `path.split('.')` (note `"".split('.')` is `[""]`, and empty
segments are kept). -/
def splitDots (s : String) : List String :=
  (splitAtDots s.data).map String.mk

/-- `getNestedValue(obj, path)` from the source (identical in both
copies of the file):

    if (!obj || !path) return undefined;
    const parts = path.split('.');
    let value = obj; … walk … ; return value;
-/
def getNestedValue (obj : Value) (path : String) : Value :=
  if jsFalsy obj || path == "" then .vUndefined
  else walkParts obj (splitDots path)

/-- Raw JS property access `item[prop]` on a value known to be
defined and non-null (used where the source has already guarded with a
truthiness test, e.g. `array[i] && …` or `item[prop1] && …`), again
restricted to data properties: strings expose their character indices
and `length`; numbers and booleans have no own properties.  A real JS
read also reaches inherited prototype members (functions such as
`item.toString`); no theorem below exercises such a key, and the
claims' loop-body property names are plain data keys. -/
def rawProp : Value → String → Value
  | .vObj kvs, p => (keyLookup kvs p).getD .vUndefined
  | .vArr xs, p =>
    if p == "length" then .vNum xs.length
    else
      match (List.range xs.length).find? (fun i => toString i == p) with
      | some i => xs.getD i .vUndefined
      | none => .vUndefined
  | .vStr s, p =>
    if p == "length" then .vNum s.length
    else
      match (List.range s.length).find? (fun i => toString i == p) with
      | some i =>
        match s.data.get? i with
        | some c => .vStr (String.mk [c])
        | none => .vUndefined
      | none => .vUndefined
  | _, _ => .vUndefined

/-- Raw JS property access `item[prop]`, which throws a `TypeError`
when `item` is `null` or `undefined`. -/
def rawPropT (item : Value) (p : String) : Except Unit Value :=
  match item with
  | .vNull => .error ()
  | .vUndefined => .error ()
  | v => .ok (rawProp v p)

mutual

/-- JS `String(value)` coercion.  Arrays stringify as their elements
joined with `","` where `null`/`undefined` elements become empty
(`Array.prototype.toString`); plain objects give `"[object Object]"`. -/
def jsToString : Value → String
  | .vUndefined => "undefined"
  | .vNull => "null"
  | .vBool b => cond b "true" "false"
  | .vNum n => toString n
  | .vStr s => s
  | .vArr xs => jsToStringList xs
  | .vObj _ => "[object Object]"

/-- Comma-joined element coercion used by `Array.prototype.toString`;
`null` and `undefined` elements join as the empty string. -/
def jsToStringList : List Value → String
  | [] => ""
  | [.vNull] => ""
  | [.vUndefined] => ""
  | [x] => jsToString x
  | .vNull :: y :: rest => "," ++ jsToStringList (y :: rest)
  | .vUndefined :: y :: rest => "," ++ jsToStringList (y :: rest)
  | x :: y :: rest => jsToString x ++ "," ++ jsToStringList (y :: rest)

end

/-- `x || ''` applied to a replacement value and then coerced by
`String.prototype.replace` — the engine's idiom for item fields. -/
def orEmptyStr (v : Value) : String :=
  if jsFalsy v then "" else jsToString v

/-- The simple-placeholder replacer applied to a resolved value:

    if (value === null || value === undefined) return '';
    return String(value);
-/
def valueText : Value → String
  | .vNull => ""
  | .vUndefined => ""
  | v => jsToString v

/-- Two-digit lowercase hex of a byte-sized value (for JSON control
escapes). -/
def hexDigit (n : Nat) : Char :=
  if n < 10 then Char.ofNat ('0'.toNat + n)
  else Char.ofNat ('a'.toNat + (n - 10))

/-- JSON string-character escaping as produced by `JSON.stringify`. -/
def escJsonChar (c : Char) : List Char :=
  if c = '"' then ['\\', '"']
  else if c = '\\' then ['\\', '\\']
  else if c = '\n' then ['\\', 'n']
  else if c = '\r' then ['\\', 'r']
  else if c = '\t' then ['\\', 't']
  else if c = '\x08' then ['\\', 'b']
  else if c = '\x0c' then ['\\', 'f']
  else if c.toNat < 32 then
    ['\\', 'u', '0', '0', hexDigit (c.toNat / 16), hexDigit (c.toNat % 16)]
  else [c]

/-- Escaped, quoted JSON string literal. -/
def jsonQuote (s : String) : String :=
  String.mk ('"' :: (s.data.foldr (fun c acc => escJsonChar c ++ acc) ['"']))

mutual

/-- `JSON.stringify(value)`.  `undefined` inside an array serializes as
`null`; an `undefined` object member is omitted.  (A top-level
`undefined` is unreachable from the engine: the call site guards the
serialized element with a truthiness test.) -/
def jsonStringify : Value → String
  | .vUndefined => "undefined"
  | .vNull => "null"
  | .vBool b => cond b "true" "false"
  | .vNum n => toString n
  | .vStr s => jsonQuote s
  | .vArr xs => "[" ++ jsonArrBody xs ++ "]"
  | .vObj kvs => "\x7b" ++ jsonObjBody kvs ++ "\x7d"

/-- Comma-separated array elements; an `undefined` element serializes
as `null`. -/
def jsonArrBody : List Value → String
  | [] => ""
  | [.vUndefined] => "null"
  | [x] => jsonStringify x
  | .vUndefined :: y :: rest => "null," ++ jsonArrBody (y :: rest)
  | x :: y :: rest => jsonStringify x ++ "," ++ jsonArrBody (y :: rest)

/-- Comma-separated object members; `undefined` members are dropped. -/
def jsonObjBody : List (String × Value) → String
  | [] => ""
  | (_, .vUndefined) :: rest => jsonObjBody rest
  | (k, v) :: rest => jsonQuote k ++ ":" ++ jsonStringify v ++ jsonObjRest rest

/-- Members after the first retained one, each preceded by a comma. -/
def jsonObjRest : List (String × Value) → String
  | [] => ""
  | (_, .vUndefined) :: rest => jsonObjRest rest
  | (k, v) :: rest => "," ++ jsonQuote k ++ ":" ++ jsonStringify v ++ jsonObjRest rest

end

/-! ## Generic global-replace scanning

`String.prototype.replace` with a global regex finds the leftmost
match, splices the replacement, and resumes scanning immediately after
the matched text (the replacement itself is never rescanned).  `findM`
locates the leftmost position where a probe recognises a match
(returning the prefix before it, the probe's payload, and the rest of
the string after the matched text); `scanR` / `scanRE` iterate it.
Every probe used below consumes at least two characters, so the number
of matches is below the string length and fuel `length + 1` is always
sufficient; the call sites pass exactly that. -/

/-- Leftmost match of a probe: `(text before the match, payload, text
after the match)`. -/
def findM (probe : List Char → Option (α × List Char)) : List Char → Option (List Char × α × List Char)
  | [] =>
    match probe [] with
    | some (r, rest) => some ([], r, rest)
    | none => none
  | c :: t =>
    match probe (c :: t) with
    | some (r, rest) => some ([], r, rest)
    | none =>
      match findM probe t with
      | some (p, r, rest) => some (c :: p, r, rest)
      | none => none

/-- Pure global replacement (fueled). -/
def scanR (probe : List Char → Option (List Char × List Char)) : Nat → List Char → List Char
  | 0, s => s
  | n + 1, s =>
    match findM probe s with
    | none => s
    | some (pre, r, rest) => pre ++ r ++ scanR probe n rest

/-- Global replacement whose replacement callback may throw (fueled).
Callbacks run left to right and the first throw aborts the whole
replacement, as in JavaScript. -/
def scanRE (probe : List Char → Option (Except Unit (List Char) × List Char)) : Nat → List Char → Except Unit (List Char)
  | 0, s => .ok s
  | n + 1, s =>
    match findM probe s with
    | none => .ok s
    | some (pre, r, rest) =>
      match r with
      | .error e => .error e
      | .ok rv =>
        match scanRE probe n rest with
        | .error e => .error e
        | .ok tail => .ok (pre ++ rv ++ tail)

/-! ## Pattern constants (directive literals) -/

def litOpen : List Char := ['{', '{']
def litClose : List Char := ['}', '}']
def litEachOpen : List Char := ['{', '{', '#', 'e', 'a', 'c', 'h']
def litEachClose : List Char := ['{', '{', '/', 'e', 'a', 'c', 'h', '}', '}']
def litIfOpen : List Char := ['{', '{', '#', 'i', 'f']
def litIfThisOpen : List Char := ['{', '{', '#', 'i', 'f', ' ', 't', 'h', 'i', 's', '.']
def litElse : List Char := ['{', '{', 'e', 'l', 's', 'e', '}', '}']
def litIfClose : List Char := ['{', '{', '/', 'i', 'f', '}', '}']
def litThisDot : List Char := ['{', '{', 't', 'h', 'i', 's', '.']
def litAtIndex : List Char := ['{', '{', '@', 'i', 'n', 'd', 'e', 'x', '}', '}']
def litThis : List Char := ['t', 'h', 'i', 's', '.']

/-! ## Loop expansion (`{{#each}}` pass)

Mirrors lines 23–72 of the source (identical in both copies of
`renderTemplate`). -/

/-- Match `\{\{this\.(\w+)\}\}` at the current position; the
replacement is `item[prop] || ''` (which throws when `item` is
null/undefined). -/
def probeThis (item : Value) (s : List Char) : Option (Except Unit (List Char) × List Char) :=
  match stripPre litThisDot s with
  | none => none
  | some r1 =>
    let w := takeWord r1
    if w.1.isEmpty then none
    else
      match stripPre litClose w.2 with
      | none => none
      | some rest =>
        some ((match rawPropT item (String.mk w.1) with
               | .error e => .error e
               | .ok v => .ok (orEmptyStr v).data), rest)

/-- Match `\{\{this\.(\w+)\.(\w+)\}\}`; the replacement is
`(item[prop1] && item[prop1][prop2]) || ''`. -/
def probeThisSub (item : Value) (s : List Char) : Option (Except Unit (List Char) × List Char) :=
  match stripPre litThisDot s with
  | none => none
  | some r1 =>
    let w1 := takeWord r1
    if w1.1.isEmpty then none
    else
      match stripPre ['.'] w1.2 with
      | none => none
      | some r2 =>
        let w2 := takeWord r2
        if w2.1.isEmpty then none
        else
          match stripPre litClose w2.2 with
          | none => none
          | some rest =>
            some ((match rawPropT item (String.mk w1.1) with
                   | .error e => .error e
                   | .ok v1 =>
                     .ok (if jsFalsy v1 then []
                          else (orEmptyStr (rawProp v1 (String.mk w2.1))).data)), rest)

/-- Match `\{\{@index\}\}`; the replacement is the (stringified)
zero-based index. -/
def probeIdx (idx : Nat) (s : List Char) : Option (List Char × List Char) :=
  match stripPre litAtIndex s with
  | none => none
  | some rest => some ((toString idx).data, rest)

/-- Match `\{\{#if\s+this\.(\w+)\}\}([\s\S]*?)\{\{else\}\}([\s\S]*?)\{\{\/if\}\}`
inside a loop body; the chosen branch is returned raw
(`isTruthy(item[prop]) ? ifContent : (elseContent || '')`). -/
def probeIfElseThis (item : Value) (s : List Char) : Option (Except Unit (List Char) × List Char) :=
  match stripPre litIfOpen s with
  | none => none
  | some r1 =>
    let sp := takeSpaces r1
    if sp.1.isEmpty then none
    else
      match stripPre litThis sp.2 with
      | none => none
      | some r2 =>
        let w := takeWord r2
        if w.1.isEmpty then none
        else
          match stripPre litClose w.2 with
          | none => none
          | some r3 =>
            match splitFirst litElse r3 with
            | none => none
            | some (ifC, r4) =>
              match splitFirst litIfClose r4 with
              | none => none
              | some (elseC, rest) =>
                some ((match rawPropT item (String.mk w.1) with
                       | .error e => .error e
                       | .ok v => .ok (if isTruthy v then ifC else elseC)), rest)

/-- Match `\{\{#if\s+this\.(\w+)\}\}([\s\S]*?)\{\{\/if\}\}` inside a
loop body (the no-`else` form). -/
def probeIfThis (item : Value) (s : List Char) : Option (Except Unit (List Char) × List Char) :=
  match stripPre litIfOpen s with
  | none => none
  | some r1 =>
    let sp := takeSpaces r1
    if sp.1.isEmpty then none
    else
      match stripPre litThis sp.2 with
      | none => none
      | some r2 =>
        let w := takeWord r2
        if w.1.isEmpty then none
        else
          match stripPre litClose w.2 with
          | none => none
          | some r3 =>
            match splitFirst litIfClose r3 with
            | none => none
            | some (content, rest) =>
              some ((match rawPropT item (String.mk w.1) with
                     | .error e => .error e
                     | .ok v => .ok (if isTruthy v then content else [])), rest)

/-- The `while (itemContent.includes('{{#if this.') && nestedCount < 5)`
loop: an if/else pass then a simple-if pass per iteration. -/
def nestedIfThisLoop : Nat → List Char → Value → Except Unit (List Char)
  | 0, s, _ => .ok s
  | n + 1, s, item =>
    if containsSub s litIfThisOpen then
      match scanRE (probeIfElseThis item) (s.length + 1) s with
      | .error e => .error e
      | .ok s1 =>
        match scanRE (probeIfThis item) (s1.length + 1) s1 with
        | .error e => .error e
        | .ok s2 => nestedIfThisLoop n s2 item
    else .ok s

/-- One rendered copy of a loop body for one element: nested
conditionals, `{{this.prop}}`, `{{this.prop.sub}}`, then `{{@index}}`,
in the source's order. -/
def processItem (body : List Char) (item : Value) (idx : Nat) : Except Unit (List Char) :=
  match nestedIfThisLoop 5 body item with
  | .error e => .error e
  | .ok s1 =>
    match scanRE (probeThis item) (s1.length + 1) s1 with
    | .error e => .error e
    | .ok s2 =>
      match scanRE (probeThisSub item) (s2.length + 1) s2 with
      | .error e => .error e
      | .ok s3 => .ok (scanR (probeIdx idx) (s3.length + 1) s3)

/-- `array.map((item, index) => …).join('')`. -/
def expandItems (body : List Char) : List Value → Nat → Except Unit (List Char)
  | [], _ => .ok []
  | it :: rest, i =>
    match processItem body it i with
    | .error e => .error e
    | .ok c =>
      match expandItems body rest (i + 1) with
      | .error e => .error e
      | .ok cs => .ok (c ++ cs)

/-- The replacement callback of the `each` regex:

    const array = getNestedValue(data, arrayName);
    if (!Array.isArray(array) || array.length === 0) return '';
    return array.map(…).join('');
-/
def eachReplacement (d : Value) (name : String) (body : List Char) : Except Unit (List Char) :=
  match getNestedValue d name with
  | .vArr xs => if xs.isEmpty then .ok [] else expandItems body xs 0
  | _ => .ok []

/-- Match `\{\{#each\s+(\w+)\}\}([\s\S]*?)\{\{\/each\}\}`. -/
def probeEach (d : Value) (s : List Char) : Option (Except Unit (List Char) × List Char) :=
  match stripPre litEachOpen s with
  | none => none
  | some r1 =>
    let sp := takeSpaces r1
    if sp.1.isEmpty then none
    else
      let w := takeWord sp.2
      if w.1.isEmpty then none
      else
        match stripPre litClose w.2 with
        | none => none
        | some r2 =>
          match splitFirst litEachClose r2 with
          | none => none
          | some (body, rest) => some (eachReplacement d (String.mk w.1) body, rest)

/-- The `while (result.includes('{{#each') && loopCount < 10)` loop. -/
def eachPhase : Nat → List Char → Value → Except Unit (List Char)
  | 0, s, _ => .ok s
  | n + 1, s, d =>
    if containsSub s litEachOpen then
      match scanRE (probeEach d) (s.length + 1) s with
      | .error e => .error e
      | .ok s1 => eachPhase n s1 d
    else .ok s

/-! ## Conditional phase, first implementation (lines 74–207)

The first copy of `renderTemplate` collects every match of the
if/else (resp. simple-if) regex with `exec`, then splices the
replacements back in reverse positional order so earlier indices stay
valid.  Matches collected by a global `exec` loop are exactly the
non-overlapping leftmost matches, and each replacement depends only on
the match's own captures, which the collect-then-splice functions
below reproduce with explicit `take`/`drop` index surgery. -/

/-- Captures of one `\{\{#if\s+(\w+)\}\}([\s\S]*?)\{\{else\}\}([\s\S]*?)\{\{\/if\}\}`
match: variable, if-branch, else-branch and total match length.  The
lazy groups take the first following `{{else}}` and the first
`{{/if}}` after it; backtracking to a later `{{else}}` can never
produce a match when this fails, because any `{{/if}}` after a later
`{{else}}` also lies after the first one. -/
def probeIfElseCap (s : List Char) : Option ((String × List Char × List Char × Nat) × List Char) :=
  match stripPre litIfOpen s with
  | none => none
  | some r1 =>
    let sp := takeSpaces r1
    if sp.1.isEmpty then none
    else
      let w := takeWord sp.2
      if w.1.isEmpty then none
      else
        match stripPre litClose w.2 with
        | none => none
        | some r2 =>
          match splitFirst litElse r2 with
          | none => none
          | some (ifC, r3) =>
            match splitFirst litIfClose r3 with
            | none => none
            | some (elseC, rest) =>
              some ((String.mk w.1, ifC, elseC,
                     5 + sp.1.length + w.1.length + 2 + ifC.length + 8 + elseC.length + 7), rest)

/-- Captures of one `\{\{#if\s+(\w+)\}\}([\s\S]*?)\{\{\/if\}\}` match:
variable, content and total match length. -/
def probeIfCap (s : List Char) : Option ((String × List Char × Nat) × List Char) :=
  match stripPre litIfOpen s with
  | none => none
  | some r1 =>
    let sp := takeSpaces r1
    if sp.1.isEmpty then none
    else
      let w := takeWord sp.2
      if w.1.isEmpty then none
      else
        match stripPre litClose w.2 with
        | none => none
        | some r2 =>
          match splitFirst litIfClose r2 with
          | none => none
          | some (content, rest) =>
            some ((String.mk w.1, content,
                   5 + sp.1.length + w.1.length + 2 + content.length + 7), rest)

/-- One if/else match together with its position in the scanned string. -/
structure IfElseMatch where
  idx : Nat
  varName : String
  ifC : List Char
  elseC : List Char
  len : Nat

/-- One simple-if match together with its position. -/
structure IfMatch where
  idx : Nat
  varName : String
  content : List Char
  len : Nat

/-- The `exec` collection loop for if/else matches (continues after
each match, like `lastIndex`). -/
def collectIfElse : Nat → Nat → List Char → List IfElseMatch
  | 0, _, _ => []
  | n + 1, i, s =>
    match probeIfElseCap s with
    | some ((v, ic, ec, L), rest) => ⟨i, v, ic, ec, L⟩ :: collectIfElse n (i + L) rest
    | none =>
      match s with
      | [] => []
      | _ :: t => collectIfElse n (i + 1) t

/-- `result.substring(0, idx) + replacement + result.substring(idx + len)`. -/
def spliceOne (s : List Char) (idx len : Nat) (repl : List Char) : List Char :=
  s.take idx ++ repl ++ s.drop (idx + len)

/-- `processNestedConditionals`' reverse-order if/else splice: the
chosen branch is inserted raw. -/
def spliceIfElseRaw (d : Value) (s : List Char) (ms : List IfElseMatch) : List Char :=
  ms.reverse.foldl (fun acc m =>
    let value := getNestedValue d m.varName
    spliceOne acc m.idx m.len (if isTruthy value then m.ifC else m.elseC)) s

/-- Reverse-order simple-if splice: content raw when truthy, deleted
when falsy (used both in `processNestedConditionals` and for the
top-level simple-if pass). -/
def spliceIfRaw (d : Value) (s : List Char) (ms : List IfMatch) : List Char :=
  ms.reverse.foldl (fun acc m =>
    let value := getNestedValue d m.varName
    spliceOne acc m.idx m.len (if isTruthy value then m.content else [])) s

/-- The `exec` collection loop for simple-if matches, without context
filtering (as used inside `processNestedConditionals`). -/
def collectIf : Nat → Nat → List Char → List IfMatch
  | 0, _, _ => []
  | n + 1, i, s =>
    match probeIfCap s with
    | some ((v, c, L), rest) => ⟨i, v, c, L⟩ :: collectIf n (i + L) rest
    | none =>
      match s with
      | [] => []
      | _ :: t => collectIf n (i + 1) t

/-- `processNestedConditionals(content, data)` (lines 75–133): a
five-pass loop of raw if/else and simple-if splices. -/
def processNested : Nat → List Char → Value → List Char
  | 0, s, _ => s
  | n + 1, s, d =>
    if containsSub s litIfOpen then
      let s1 := spliceIfElseRaw d s (collectIfElse (s.length + 1) 0 s)
      let s2 := spliceIfRaw d s1 (collectIf (s1.length + 1) 0 s1)
      processNested n s2 d
    else s

/-- Top-level if/else splice: the chosen branch is recursively
processed by `processNestedConditionals` before splicing (lines
156–170). -/
def spliceIfElseTop (d : Value) (s : List Char) (ms : List IfElseMatch) : List Char :=
  ms.reverse.foldl (fun acc m =>
    let value := getNestedValue d m.varName
    spliceOne acc m.idx m.len
      (if isTruthy value then processNested 5 m.ifC d else processNested 5 m.elseC d)) s

/-- The 100-character context filter of the top-level simple-if
collection (lines 180–191): the match is skipped when `{{else}}`
occurs in the 100 characters before it or in the match text plus the
100 characters after it. -/
def ctxOk (s : List Char) (i L : Nat) : Bool :=
  let lo := i - 100
  let before := (s.drop lo).take (i - lo)
  let after := (s.drop i).take (L + 100)
  !containsSub before litElse && !containsSub after litElse

/-- Top-level simple-if collection with the context filter applied at
collection time against the scanned string (skipped matches still
advance the scan position, as `exec` does). -/
def collectIfCtx (s : List Char) : Nat → Nat → List Char → List IfMatch
  | 0, _, _ => []
  | n + 1, i, t =>
    match probeIfCap t with
    | some ((v, c, L), rest) =>
      if ctxOk s i L then ⟨i, v, c, L⟩ :: collectIfCtx s n (i + L) rest
      else collectIfCtx s n (i + L) rest
    | none =>
      match t with
      | [] => []
      | _ :: u => collectIfCtx s n (i + 1) u

/-- The `while (result.includes('{{#if') && ifCount < 10)` loop of the
first implementation: an if/else collect-and-splice, then a
context-filtered simple-if collect-and-splice, per iteration. -/
def ifPhase1 : Nat → List Char → Value → List Char
  | 0, s, _ => s
  | n + 1, s, d =>
    if containsSub s litIfOpen then
      let s1 := spliceIfElseTop d s (collectIfElse (s.length + 1) 0 s)
      let s2 := spliceIfRaw d s1 (collectIfCtx s1 (s1.length + 1) 0 s1)
      ifPhase1 n s2 d
    else s

/-! ## Conditional phase, second implementation (lines 361–397)

The second copy of `renderTemplate` repeatedly replaces the first
match (`result.match(…)` + `indexOf(fullMatch)`; the matched text's
first occurrence is the match position, since an earlier occurrence of
the same text would itself contain an earlier regex match).  Each
splice strictly shortens the string, so fuel `length + 1` covers the
unbounded `while`. -/

/-- `while ((ifElseMatch = result.match(ifElseRegex)) !== null) …`. -/
def replFirstIfElse : Nat → List Char → Value → List Char
  | 0, s, _ => s
  | n + 1, s, d =>
    match findM probeIfElseCap s with
    | none => s
    | some (pre, (v, ic, ec, _), rest) =>
      let value := getNestedValue d v
      replFirstIfElse n (pre ++ (if isTruthy value then ic else ec) ++ rest) d

/-- `while ((ifMatch = result.match(ifRegex)) !== null) …`. -/
def replFirstIf : Nat → List Char → Value → List Char
  | 0, s, _ => s
  | n + 1, s, d =>
    match findM probeIfCap s with
    | none => s
    | some (pre, (v, c, _), rest) =>
      let value := getNestedValue d v
      replFirstIf n (pre ++ (if isTruthy value then c else []) ++ rest) d

/-- The `while (result.includes('{{#if') && ifCount < 10)` loop of the
second implementation. -/
def ifPhase2 : Nat → List Char → Value → List Char
  | 0, s, _ => s
  | n + 1, s, d =>
    if containsSub s litIfOpen then
      let s1 := replFirstIfElse (s.length + 1) s d
      let s2 := replFirstIf (s1.length + 1) s1 d
      ifPhase2 n s2 d
    else s

/-! ## Indexed, simple and cleanup passes (lines 209–239)

These four passes are textually identical in the two copies of
`renderTemplate`. -/

/-- Match `\{\{(\w+)\.(\d+)\.(\w+)\}\}`; the replacement is

    if (Array.isArray(array) && array[parseInt(index)])
        return array[parseInt(index)][prop] || '';
    return '';
-/
def probeArrProp (d : Value) (s : List Char) : Option (List Char × List Char) :=
  match stripPre litOpen s with
  | none => none
  | some r1 =>
    let w1 := takeWord r1
    if w1.1.isEmpty then none
    else
      match stripPre ['.'] w1.2 with
      | none => none
      | some r2 =>
        let ds := takeDigits r2
        if ds.1.isEmpty then none
        else
          match stripPre ['.'] ds.2 with
          | none => none
          | some r3 =>
            let w2 := takeWord r3
            if w2.1.isEmpty then none
            else
              match stripPre litClose w2.2 with
              | none => none
              | some rest =>
                let repl :=
                  match getNestedValue d (String.mk w1.1) with
                  | .vArr xs =>
                    let el := xs.getD (natOfDigits ds.1) .vUndefined
                    if jsFalsy el then []
                    else (orEmptyStr (rawProp el (String.mk w2.1))).data
                  | _ => []
                some (repl, rest)

/-- Match `\{\{(\w+)\.(\d+)\}\}`; the replacement serializes the whole
element with `JSON.stringify` when the element is truthy. -/
def probeArrNoProp (d : Value) (s : List Char) : Option (List Char × List Char) :=
  match stripPre litOpen s with
  | none => none
  | some r1 =>
    let w1 := takeWord r1
    if w1.1.isEmpty then none
    else
      match stripPre ['.'] w1.2 with
      | none => none
      | some r2 =>
        let ds := takeDigits r2
        if ds.1.isEmpty then none
        else
          match stripPre litClose ds.2 with
          | none => none
          | some rest =>
            let repl :=
              match getNestedValue d (String.mk w1.1) with
              | .vArr xs =>
                let el := xs.getD (natOfDigits ds.1) .vUndefined
                if jsFalsy el then [] else (jsonStringify el).data
              | _ => []
            some (repl, rest)

/-- The `(?:\.\w+)*` groups of the simple-placeholder pattern (fueled;
callers pass the remaining length plus one). -/
def dotWords : Nat → List Char → List Char × List Char
  | 0, s => ([], s)
  | n + 1, s =>
    match s with
    | '.' :: t =>
      let w := takeWord t
      if w.1.isEmpty then ([], s)
      else
        let p := dotWords n w.2
        ('.' :: (w.1 ++ p.1), p.2)
    | _ => ([], s)

/-- Match `\{\{(\w+(?:\.\w+)*)\}\}`; the replacement is

    const value = getNestedValue(data, path);
    if (value === null || value === undefined) return '';
    return String(value);
-/
def probeSimple (d : Value) (s : List Char) : Option (List Char × List Char) :=
  match stripPre litOpen s with
  | none => none
  | some r1 =>
    let w1 := takeWord r1
    if w1.1.isEmpty then none
    else
      let g := dotWords (w1.2.length + 1) w1.2
      match stripPre litClose g.2 with
      | none => none
      | some rest =>
        let path := String.mk (w1.1 ++ g.1)
        some ((valueText (getNestedValue d path)).data, rest)

/-- The lazy `.*?\}\}` tail of the cleanup pattern: scan (not crossing
a line terminator, since `.` does not match one) to the first `}}`. -/
def findCloseNN : List Char → Option (List Char)
  | '}' :: '}' :: t => some t
  | c :: t =>
    if c = '\n' || c = '\r' || c.toNat = 8232 || c.toNat = 8233 then none
    else findCloseNN t
  | [] => none

/-- Match `\{\{[#\/]?\w+.*?\}\}` (the final cleanup); the replacement
is always empty. -/
def probeCleanup (s : List Char) : Option (List Char × List Char) :=
  match stripPre litOpen s with
  | none => none
  | some r1 =>
    let r2 :=
      match r1 with
      | '#' :: t => t
      | '/' :: t => t
      | _ => r1
    let w := takeWord r2
    if w.1.isEmpty then none
    else
      match findCloseNN w.2 with
      | none => none
      | some rest => some ([], rest)

/-- `result.replace(/\{\{(\w+)\.(\d+)\.(\w+)\}\}/g, …)`. -/
def arrPropPass (d : Value) (s : List Char) : List Char :=
  scanR (probeArrProp d) (s.length + 1) s

/-- `result.replace(/\{\{(\w+)\.(\d+)\}\}/g, …)`. -/
def arrNoPropPass (d : Value) (s : List Char) : List Char :=
  scanR (probeArrNoProp d) (s.length + 1) s

/-- `result.replace(/\{\{(\w+(?:\.\w+)*)\}\}/g, …)`. -/
def simplePass (d : Value) (s : List Char) : List Char :=
  scanR (probeSimple d) (s.length + 1) s

/-- `result.replace(/\{\{[#\/]?\w+.*?\}\}/g, '')` — the sanitizing
pass. -/
def cleanupPass (s : List Char) : List Char :=
  scanR probeCleanup (s.length + 1) s

/-- The four trailing passes shared verbatim by both implementations. -/
def postPasses (d : Value) (s : List Char) : List Char :=
  cleanupPass (simplePass d (arrNoPropPass d (arrPropPass d s)))

/-- The first complete `renderTemplate` of the source file (lines
8–240): loops, then the collect-and-splice conditional phase, then the
shared trailing passes. -/
def renderTemplate1 (template : String) (data : Value) : Except Unit String :=
  match eachPhase 10 template.data data with
  | .error e => .error e
  | .ok s1 => .ok (String.mk (postPasses data (ifPhase1 10 s1 data)))

/-- The second complete `renderTemplate` of the source file (lines
295–430): loops, then the repeat-first-match conditional phase, then
the shared trailing passes. -/
def renderTemplate2 (template : String) (data : Value) : Except Unit String :=
  match eachPhase 10 template.data data with
  | .error e => .error e
  | .ok s1 => .ok (String.mk (postPasses data (ifPhase2 10 s1 data)))

/-! ## Auxiliary definitions for the claims -/

mutual

/-- A document that conforms to the specification's data model (§3):
every sequence is a sequence of documents, i.e. of mappings. -/
def wfDoc : Value → Bool
  | .vArr xs => wfArr xs
  | .vObj kvs => wfKVs kvs
  | _ => true

/-- All elements of a sequence are (well-formed) mappings. -/
def wfArr : List Value → Bool
  | [] => true
  | .vObj kvs :: rest => wfKVs kvs && wfArr rest
  | _ :: _ => false

/-- All values of a mapping are well-formed. -/
def wfKVs : List (String × Value) → Bool
  | [] => true
  | (_, v) :: rest => wfDoc v && wfKVs rest

end

/-- String-keyed members of `Object.prototype` (the ECMAScript
ordinary object prototype, including the Annex B legacy accessors):
on a plain JavaScript object a missing own key `p` still satisfies
`p in obj` exactly when `p` names one of these inherited members.
Sequences additionally inherit the `Array.prototype` methods, so the
missing-segment law below is stated for mappings only; a sequence's
own properties (indices and `length`) are modelled in `hasProp`. -/
def jsProtoKey (p : String) : Bool :=
  p == "constructor" || p == "hasOwnProperty" || p == "isPrototypeOf" ||
  p == "propertyIsEnumerable" || p == "toLocaleString" || p == "toString" ||
  p == "valueOf" || p == "__proto__" || p == "__defineGetter__" ||
  p == "__defineSetter__" || p == "__lookupGetter__" || p == "__lookupSetter__"

/-- A string free of `'{'` characters (no pass of the engine can match
inside it). -/
def BraceFree (s : List Char) : Prop :=
  ∀ c ∈ s, c ≠ '{'

instance (s : List Char) : Decidable (BraceFree s) := by
  unfold BraceFree
  infer_instance

/-- A probe only recognises a match at a `{{`. -/
def ProbeBB (probe : List Char → Option α) : Prop :=
  ∀ s r, probe s = some r → ∃ t, s = '{' :: '{' :: t

/-- One rendered copy of the loop body used by the loop-count theorem. -/
def loopCopy (s : String) (i : Nat) : String :=
  "<li>" ++ s ++ ":" ++ toString i ++ "</li>"

/-- The rendered copies for the names from a given starting index, in
sequence order. -/
def loopCopiesFrom (i : Nat) : List String → String
  | [] => ""
  | s :: rest => loopCopy s i ++ loopCopiesFrom (i + 1) rest

/-- All rendered copies, in sequence order. -/
def loopCopies (names : List String) : String :=
  loopCopiesFrom 0 names

/-- Wrap a name into the item document `{ name: s }`. -/
def mkItem (s : String) : Value :=
  Value.vObj [("name", Value.vStr s)]

/-- The loop-law template: one `each` block over `items`, with literal
text around it and a body using `{{this.name}}` and `{{@index}}`. -/
def loopTemplate : String :=
  "Hello! \x7b\x7b#each items\x7d\x7d<li>\x7b\x7bthis.name\x7d\x7d:\x7b\x7b@index\x7d\x7d</li>\x7b\x7b/each\x7d\x7d bye"

/-- The body of the `each` block in `loopTemplate`. -/
def loopBody : List Char :=
  "<li>\x7b\x7bthis.name\x7d\x7d:\x7b\x7b@index\x7d\x7d</li>".data

/-- The loop-law document for a list of names. -/
def loopDoc (names : List String) : Value :=
  Value.vObj [("items", Value.vArr (names.map mkItem))]

/-- A template with a single `each` block and literal text around it. -/
def blockTemplate : String :=
  "A\x7b\x7b#each items\x7d\x7dX\x7b\x7b/each\x7d\x7dB"

/-- The nested-conditional template
`if a { if b {X} else {Y} } else {Z}`. -/
def nestedIfTemplate : String :=
  "\x7b\x7b#if a\x7d\x7d\x7b\x7b#if b\x7d\x7dX\x7b\x7belse\x7d\x7dY\x7b\x7b/if\x7d\x7d\x7b\x7belse\x7d\x7dZ\x7b\x7b/if\x7d\x7d"

/-- A document binding `a` and `b`. -/
def abDoc (va vb : Value) : Value :=
  Value.vObj [("a", va), ("b", vb)]

/-- The single-conditional template used by the truthiness theorem. -/
def ifTemplate : String :=
  "\x7b\x7b#if x\x7d\x7dT\x7b\x7belse\x7d\x7dF\x7b\x7b/if\x7d\x7d"

/-- A document binding only `x`. -/
def xDoc (v : Value) : Value :=
  Value.vObj [("x", v)]

/-- The template on which the two implementations disagree: a stray
`{{else}}` within 100 characters of a simple `if` block. -/
def divergeTemplate : String :=
  "\x7b\x7belse\x7d\x7d\x7b\x7b#if a\x7d\x7dX\x7b\x7b/if\x7d\x7d"

/-! ## Scanning lemmas -/

theorem stripPre_some_head {p : Char} {pt s r : List Char}
    (h : stripPre (p :: pt) s = some r) : ∃ t, s = p :: t := by
  cases s with
  | nil => simp [stripPre] at h
  | cons c ct =>
    by_cases hc : c = p
    · exact ⟨ct, by rw [hc]⟩
    · simp [stripPre, hc] at h

theorem stripPre_some_head2 {p q : Char} {pt s r : List Char}
    (h : stripPre (p :: q :: pt) s = some r) : ∃ t, s = p :: q :: t := by
  obtain ⟨t, ht⟩ := stripPre_some_head h
  subst ht
  simp only [stripPre, if_pos rfl] at h
  obtain ⟨u, hu⟩ := stripPre_some_head h
  exact ⟨u, by rw [hu]⟩

theorem braceFree_cons {c : Char} {t : List Char} (h : BraceFree (c :: t)) :
    c ≠ '{' ∧ BraceFree t :=
  ⟨h c (List.mem_cons_self ..), fun x hx => h x (List.mem_cons_of_mem _ hx)⟩

theorem braceFree_append {a b : List Char} (ha : BraceFree a) (hb : BraceFree b) :
    BraceFree (a ++ b) := by
  intro c hc
  rcases List.mem_append.mp hc with h | h
  · exact ha c h
  · exact hb c h

theorem splitFirst_none_of_braceFree {pat s : List Char} (h : BraceFree s) :
    splitFirst ('{' :: pat) s = none := by
  induction s with
  | nil => rfl
  | cons c t ih =>
    obtain ⟨hc, ht⟩ := braceFree_cons h
    have hs : stripPre ('{' :: pat) (c :: t) = none := by simp [stripPre, hc]
    simp [splitFirst, hs, ih ht]

theorem containsSub_false_of_braceFree {pat : List Char} {s : List Char} (h : BraceFree s) :
    containsSub s ('{' :: pat) = false := by
  simp [containsSub, splitFirst_none_of_braceFree h]

theorem containsSub_cons_false {pat : List Char} {c : Char} {t : List Char}
    (h : containsSub (c :: t) pat = false) : containsSub t pat = false := by
  unfold containsSub at h ⊢
  unfold splitFirst at h
  cases hs : stripPre pat (c :: t) with
  | some r => rw [hs] at h; simp at h
  | none =>
    rw [hs] at h
    cases ht : splitFirst pat t with
    | some p => rw [ht] at h; simp at h
    | none => simp [ht]

theorem containsSub_head_strip {pat : List Char} {s : List Char}
    (h : containsSub s pat = false) : stripPre pat s = none := by
  cases hs : stripPre pat s with
  | none => rfl
  | some r =>
    exfalso
    have hsf : splitFirst pat s = some ([], r) := by
      cases s with
      | nil => unfold splitFirst; rw [hs]
      | cons c t => unfold splitFirst; rw [hs]
    unfold containsSub at h
    rw [hsf] at h
    simp at h

theorem findM_none_of_no_open {α} {probe : List Char → Option (α × List Char)}
    (hp : ProbeBB probe) : ∀ {s : List Char},
    containsSub s litOpen = false → findM probe s = none := by
  intro s
  induction s with
  | nil =>
    intro _
    cases hpe : probe [] with
    | none => simp [findM, hpe]
    | some r =>
      obtain ⟨t, ht⟩ := hp _ _ hpe
      exact absurd ht (by simp)
  | cons c t ih =>
    intro h
    have hpe : probe (c :: t) = none := by
      cases hq : probe (c :: t) with
      | none => rfl
      | some r =>
        obtain ⟨u, hu⟩ := hp _ _ hq
        have : stripPre litOpen (c :: t) = some u := by
          rw [hu]; simp [litOpen, stripPre]
        rw [containsSub_head_strip h] at this
        exact absurd this (by simp)
    have ht := ih (containsSub_cons_false h)
    simp [findM, hpe, ht]

theorem findM_none_of_braceFree {α} {probe : List Char → Option (α × List Char)}
    (hp : ProbeBB probe) {s : List Char} (h : BraceFree s) :
    findM probe s = none :=
  findM_none_of_no_open hp (containsSub_false_of_braceFree h)

theorem findM_append_braceFree {α} {probe : List Char → Option (α × List Char)}
    (hp : ProbeBB probe) {a b : List Char} (h : BraceFree a) :
    findM probe (a ++ b) =
      (findM probe b).map (fun x => (a ++ x.1, x.2.1, x.2.2)) := by
  induction a with
  | nil =>
    cases hf : findM probe b <;> simp [hf]
  | cons c a' ih =>
    obtain ⟨hc, ha'⟩ := braceFree_cons h
    have hpe : probe (c :: (a' ++ b)) = none := by
      cases hq : probe (c :: (a' ++ b)) with
      | none => rfl
      | some r =>
        obtain ⟨u, hu⟩ := hp _ _ hq
        have : c = '{' := by injection hu
        exact absurd this hc
    rw [List.cons_append]
    rw [findM, hpe]
    rw [ih ha']
    cases hf : findM probe b with
    | none => simp
    | some x => simp

theorem scanR_of_findM_none {probe : List Char → Option (List Char × List Char)}
    {s : List Char} (h : findM probe s = none) (n : Nat) : scanR probe n s = s := by
  cases n <;> simp [scanR, h]

theorem scanR_braceFree {probe : List Char → Option (List Char × List Char)}
    (hp : ProbeBB probe) {s : List Char} (h : BraceFree s) (n : Nat) :
    scanR probe n s = s :=
  scanR_of_findM_none (findM_none_of_braceFree hp h) n

theorem scanR_append_braceFree {probe : List Char → Option (List Char × List Char)}
    (hp : ProbeBB probe) {a b : List Char} (h : BraceFree a) (n : Nat) :
    scanR probe n (a ++ b) = a ++ scanR probe n b := by
  cases n with
  | zero => rfl
  | succ n =>
    rw [scanR, scanR, findM_append_braceFree hp h]
    cases hf : findM probe b with
    | none => simp
    | some x => simp [List.append_assoc]

theorem scanRE_of_findM_none {probe : List Char → Option (Except Unit (List Char) × List Char)}
    {s : List Char} (h : findM probe s = none) (n : Nat) : scanRE probe n s = .ok s := by
  cases n <;> simp [scanRE, h]

theorem scanRE_braceFree {probe : List Char → Option (Except Unit (List Char) × List Char)}
    (hp : ProbeBB probe) {s : List Char} (h : BraceFree s) (n : Nat) :
    scanRE probe n s = .ok s :=
  scanRE_of_findM_none (findM_none_of_braceFree hp h) n

theorem scanRE_append_braceFree {probe : List Char → Option (Except Unit (List Char) × List Char)}
    (hp : ProbeBB probe) {a b : List Char} (h : BraceFree a) (n : Nat) :
    scanRE probe n (a ++ b) = (scanRE probe n b).map (fun t => a ++ t) := by
  cases n with
  | zero => rfl
  | succ n =>
    rw [scanRE, scanRE, findM_append_braceFree hp h]
    cases hf : findM probe b with
    | none => simp [Except.map]
    | some x =>
      cases hr : x.2.1 with
      | error e => simp [hr, Except.map]
      | ok rv =>
        cases ht : scanRE probe n x.2.2 with
        | error e => simp [hr, ht, Except.map]
        | ok tail => simp [hr, ht, Except.map, List.append_assoc]

/-! ## Every probe fires only at a `{{` -/

theorem probeThis_bb (item : Value) : ProbeBB (probeThis item) := by
  intro s r h
  unfold probeThis at h
  cases hs : stripPre litThisDot s with
  | none => rw [hs] at h; simp at h
  | some t => exact stripPre_some_head2 hs

theorem probeThisSub_bb (item : Value) : ProbeBB (probeThisSub item) := by
  intro s r h
  unfold probeThisSub at h
  cases hs : stripPre litThisDot s with
  | none => rw [hs] at h; simp at h
  | some t => exact stripPre_some_head2 hs

theorem probeIdx_bb (i : Nat) : ProbeBB (probeIdx i) := by
  intro s r h
  unfold probeIdx at h
  cases hs : stripPre litAtIndex s with
  | none => rw [hs] at h; simp at h
  | some t => exact stripPre_some_head2 hs

theorem probeIfElseThis_bb (item : Value) : ProbeBB (probeIfElseThis item) := by
  intro s r h
  unfold probeIfElseThis at h
  cases hs : stripPre litIfOpen s with
  | none => rw [hs] at h; simp at h
  | some t => exact stripPre_some_head2 hs

theorem probeIfThis_bb (item : Value) : ProbeBB (probeIfThis item) := by
  intro s r h
  unfold probeIfThis at h
  cases hs : stripPre litIfOpen s with
  | none => rw [hs] at h; simp at h
  | some t => exact stripPre_some_head2 hs

theorem probeEach_bb (d : Value) : ProbeBB (probeEach d) := by
  intro s r h
  unfold probeEach at h
  cases hs : stripPre litEachOpen s with
  | none => rw [hs] at h; simp at h
  | some t => exact stripPre_some_head2 hs

theorem probeIfElseCap_bb : ProbeBB probeIfElseCap := by
  intro s r h
  unfold probeIfElseCap at h
  cases hs : stripPre litIfOpen s with
  | none => rw [hs] at h; simp at h
  | some t => exact stripPre_some_head2 hs

theorem probeIfCap_bb : ProbeBB probeIfCap := by
  intro s r h
  unfold probeIfCap at h
  cases hs : stripPre litIfOpen s with
  | none => rw [hs] at h; simp at h
  | some t => exact stripPre_some_head2 hs

theorem probeArrProp_bb (d : Value) : ProbeBB (probeArrProp d) := by
  intro s r h
  unfold probeArrProp at h
  cases hs : stripPre litOpen s with
  | none => rw [hs] at h; simp at h
  | some t => exact stripPre_some_head2 hs

theorem probeArrNoProp_bb (d : Value) : ProbeBB (probeArrNoProp d) := by
  intro s r h
  unfold probeArrNoProp at h
  cases hs : stripPre litOpen s with
  | none => rw [hs] at h; simp at h
  | some t => exact stripPre_some_head2 hs

theorem probeSimple_bb (d : Value) : ProbeBB (probeSimple d) := by
  intro s r h
  unfold probeSimple at h
  cases hs : stripPre litOpen s with
  | none => rw [hs] at h; simp at h
  | some t => exact stripPre_some_head2 hs

theorem probeCleanup_bb : ProbeBB probeCleanup := by
  intro s r h
  unfold probeCleanup at h
  cases hs : stripPre litOpen s with
  | none => rw [hs] at h; simp at h
  | some t => exact stripPre_some_head2 hs

/-! ## Phase-identity lemmas -/

theorem eachPhase_of_no_open {s : List Char} (h : containsSub s litEachOpen = false)
    (n : Nat) (d : Value) : eachPhase n s d = .ok s := by
  cases n <;> simp [eachPhase, h]

theorem ifPhase1_of_no_open {s : List Char} (h : containsSub s litIfOpen = false)
    (n : Nat) (d : Value) : ifPhase1 n s d = s := by
  cases n <;> simp [ifPhase1, h]

theorem ifPhase2_of_no_open {s : List Char} (h : containsSub s litIfOpen = false)
    (n : Nat) (d : Value) : ifPhase2 n s d = s := by
  cases n <;> simp [ifPhase2, h]

theorem processNested_of_no_open {s : List Char} (h : containsSub s litIfOpen = false)
    (n : Nat) (d : Value) : processNested n s d = s := by
  cases n <;> simp [processNested, h]

theorem nestedIfThisLoop_of_no_open {s : List Char} (h : containsSub s litIfThisOpen = false)
    (n : Nat) (item : Value) : nestedIfThisLoop n s item = .ok s := by
  cases n <;> simp [nestedIfThisLoop, h]

theorem arrPropPass_braceFree {d : Value} {s : List Char} (h : BraceFree s) :
    arrPropPass d s = s :=
  scanR_braceFree (probeArrProp_bb d) h _

theorem arrNoPropPass_braceFree {d : Value} {s : List Char} (h : BraceFree s) :
    arrNoPropPass d s = s :=
  scanR_braceFree (probeArrNoProp_bb d) h _

theorem simplePass_braceFree {d : Value} {s : List Char} (h : BraceFree s) :
    simplePass d s = s :=
  scanR_braceFree (probeSimple_bb d) h _

theorem cleanupPass_braceFree {s : List Char} (h : BraceFree s) :
    cleanupPass s = s :=
  scanR_braceFree probeCleanup_bb h _

theorem cleanupPass_of_no_open {s : List Char} (h : containsSub s litOpen = false) :
    cleanupPass s = s :=
  scanR_of_findM_none (findM_none_of_no_open probeCleanup_bb h) _

theorem arrPropPass_of_no_open {d : Value} {s : List Char}
    (h : containsSub s litOpen = false) : arrPropPass d s = s :=
  scanR_of_findM_none (findM_none_of_no_open (probeArrProp_bb d) h) _

theorem arrNoPropPass_of_no_open {d : Value} {s : List Char}
    (h : containsSub s litOpen = false) : arrNoPropPass d s = s :=
  scanR_of_findM_none (findM_none_of_no_open (probeArrNoProp_bb d) h) _

theorem simplePass_of_no_open {d : Value} {s : List Char}
    (h : containsSub s litOpen = false) : simplePass d s = s :=
  scanR_of_findM_none (findM_none_of_no_open (probeSimple_bb d) h) _

theorem postPasses_braceFree (d : Value) {s : List Char} (h : BraceFree s) :
    postPasses d s = s := by
  unfold postPasses
  rw [arrPropPass_braceFree h, arrNoPropPass_braceFree h, simplePass_braceFree h,
    cleanupPass_braceFree h]

/-! ## Single-step evaluation lemmas (symbolic execution toolkit) -/

theorem scanR_succ_found {probe : List Char → Option (List Char × List Char)}
    {s pre r rest : List Char} (h : findM probe s = some (pre, r, rest)) (n : Nat) :
    scanR probe (n + 1) s = pre ++ r ++ scanR probe n rest := by
  rw [scanR, h]

theorem scanRE_one_match {probe : List Char → Option (Except Unit (List Char) × List Char)}
    {s pre rv rest tail : List Char} {n : Nat}
    (hf : findM probe s = some (pre, .ok rv, rest))
    (ht : scanRE probe n rest = .ok tail) :
    scanRE probe (n + 1) s = .ok (pre ++ rv ++ tail) := by
  rw [scanRE]
  simp only [hf, ht]

theorem eachPhase_succ_contains {s : List Char} (h : containsSub s litEachOpen = true)
    (n : Nat) (d : Value) :
    eachPhase (n + 1) s d =
      (match scanRE (probeEach d) (s.length + 1) s with
       | .error e => .error e
       | .ok s1 => eachPhase n s1 d) := by
  simp [eachPhase, h]

theorem ifPhase1_succ_contains {s : List Char} (h : containsSub s litIfOpen = true)
    (n : Nat) (d : Value) :
    ifPhase1 (n + 1) s d =
      ifPhase1 n
        (spliceIfRaw d (spliceIfElseTop d s (collectIfElse (s.length + 1) 0 s))
          (collectIfCtx (spliceIfElseTop d s (collectIfElse (s.length + 1) 0 s))
            ((spliceIfElseTop d s (collectIfElse (s.length + 1) 0 s)).length + 1) 0
            (spliceIfElseTop d s (collectIfElse (s.length + 1) 0 s)))) d := by
  simp [ifPhase1, h]

theorem ifPhase2_succ_contains {s : List Char} (h : containsSub s litIfOpen = true)
    (n : Nat) (d : Value) :
    ifPhase2 (n + 1) s d =
      ifPhase2 n (replFirstIf ((replFirstIfElse (s.length + 1) s d).length + 1)
        (replFirstIfElse (s.length + 1) s d) d) d := by
  simp [ifPhase2, h]

theorem replFirstIfElse_none {s : List Char} (h : findM probeIfElseCap s = none)
    (n : Nat) (d : Value) : replFirstIfElse n s d = s := by
  cases n <;> simp [replFirstIfElse, h]

theorem replFirstIfElse_found {s pre : List Char} {v : String} {ic ec : List Char} {L : Nat}
    {rest : List Char} (h : findM probeIfElseCap s = some (pre, (v, ic, ec, L), rest))
    (n : Nat) (d : Value) :
    replFirstIfElse (n + 1) s d =
      replFirstIfElse n
        (pre ++ (if isTruthy (getNestedValue d v) = true then ic else ec) ++ rest) d := by
  rw [replFirstIfElse, h]

theorem replFirstIf_none {s : List Char} (h : findM probeIfCap s = none)
    (n : Nat) (d : Value) : replFirstIf n s d = s := by
  cases n <;> simp [replFirstIf, h]

theorem replFirstIf_found {s pre : List Char} {v : String} {c : List Char} {L : Nat}
    {rest : List Char} (h : findM probeIfCap s = some (pre, (v, c, L), rest))
    (n : Nat) (d : Value) :
    replFirstIf (n + 1) s d =
      replFirstIf n
        (pre ++ (if isTruthy (getNestedValue d v) = true then c else []) ++ rest) d := by
  rw [replFirstIf, h]

theorem spliceIfElseTop_single (d : Value) (s : List Char) (m : IfElseMatch) :
    spliceIfElseTop d s [m] =
      spliceOne s m.idx m.len
        (if isTruthy (getNestedValue d m.varName) = true
         then processNested 5 m.ifC d else processNested 5 m.elseC d) := rfl

theorem spliceIfRaw_nil (d : Value) (s : List Char) : spliceIfRaw d s [] = s := rfl

theorem spliceIfRaw_single (d : Value) (s : List Char) (m : IfMatch) :
    spliceIfRaw d s [m] =
      spliceOne s m.idx m.len
        (if isTruthy (getNestedValue d m.varName) = true then m.content else []) := rfl

theorem bool_false_not_true {b : Bool} (h : b = false) : ¬(b = true) := by
  simp [h]

theorem spliceIfElseRaw_nil (d : Value) (s : List Char) : spliceIfElseRaw d s [] = s := rfl

theorem processNested_succ_contains {s : List Char} (h : containsSub s litIfOpen = true)
    (n : Nat) (d : Value) :
    processNested (n + 1) s d =
      processNested n
        (spliceIfRaw d (spliceIfElseRaw d s (collectIfElse (s.length + 1) 0 s))
          (collectIf ((spliceIfElseRaw d s (collectIfElse (s.length + 1) 0 s)).length + 1) 0
            (spliceIfElseRaw d s (collectIfElse (s.length + 1) 0 s)))) d := by
  simp [processNested, h]

/-- `processNestedConditionals` leaves a string unchanged when neither
of its regexes matches anywhere in it. -/
theorem processNested_stable (s : List Char)
    (h1 : collectIfElse (s.length + 1) 0 s = [])
    (h2 : collectIf (s.length + 1) 0 s = []) (n : Nat) (d : Value) :
    processNested n s d = s := by
  induction n with
  | zero => rfl
  | succ n ih =>
    by_cases hc : containsSub s litIfOpen = true
    · rw [processNested_succ_contains hc, h1, spliceIfElseRaw_nil, h2, spliceIfRaw_nil, ih]
    · exact processNested_of_no_open (by simpa using hc) _ _

/-! ## Symbolic renders of the conditional templates -/

/-- The single if/else template renders the branch chosen by
`isTruthy`, for every value of the variable. -/
theorem render_ifTemplate (v : Value) :
    renderTemplate1 ifTemplate (xDoc v) = .ok (if isTruthy v = true then "T" else "F") := by
  have key : ifPhase1 10 ifTemplate.data (xDoc v) =
      (if isTruthy v = true then "T".data else "F".data) := by
    show ifPhase1 (9 + 1) ifTemplate.data (xDoc v) = _
    rw [ifPhase1_succ_contains (by decide)]
    rw [show collectIfElse (ifTemplate.data.length + 1) 0 ifTemplate.data =
        [⟨0, "x", "T".data, "F".data, 26⟩] from rfl]
    rw [spliceIfElseTop_single]
    rw [show getNestedValue (xDoc v) "x" = v from rfl]
    by_cases hv : isTruthy v = true
    · rw [if_pos hv, if_pos hv]
      rw [show processNested 5 "T".data (xDoc v) = "T".data from rfl]
      rw [show spliceOne ifTemplate.data 0 26 "T".data = "T".data from rfl]
      rw [show collectIfCtx "T".data ("T".data.length + 1) 0 "T".data = [] from rfl]
      rw [spliceIfRaw_nil]
      exact ifPhase1_of_no_open (by decide) 9 (xDoc v)
    · rw [if_neg hv, if_neg hv]
      rw [show processNested 5 "F".data (xDoc v) = "F".data from rfl]
      rw [show spliceOne ifTemplate.data 0 26 "F".data = "F".data from rfl]
      rw [show collectIfCtx "F".data ("F".data.length + 1) 0 "F".data = [] from rfl]
      rw [spliceIfRaw_nil]
      exact ifPhase1_of_no_open (by decide) 9 (xDoc v)
  have base : renderTemplate1 ifTemplate (xDoc v) =
      .ok (String.mk (postPasses (xDoc v) (ifPhase1 10 ifTemplate.data (xDoc v)))) := rfl
  rw [base, key]
  by_cases hv : isTruthy v = true
  · rw [if_pos hv, if_pos hv]
    rw [postPasses_braceFree _ (by decide)]
  · rw [if_neg hv, if_neg hv]
    rw [postPasses_braceFree _ (by decide)]

/-- The first implementation renders the nested if/else template to
`Z` whenever `a` is truthy and `b` is falsy: the first `{{else}}` is
paired with the outer `{{#if}}`. -/
theorem render_nested1 (va vb : Value) (ha : isTruthy va = true) (hb : isTruthy vb = false) :
    renderTemplate1 nestedIfTemplate (abDoc va vb) = .ok "Z" := by
  have key : ifPhase1 10 nestedIfTemplate.data (abDoc va vb) = "Z".data := by
    show ifPhase1 (9 + 1) nestedIfTemplate.data (abDoc va vb) = _
    rw [ifPhase1_succ_contains (by decide)]
    rw [show collectIfElse (nestedIfTemplate.data.length + 1) 0 nestedIfTemplate.data =
        [⟨0, "a", "\x7b\x7b#if b\x7d\x7dX".data, "Y".data, 35⟩] from rfl]
    rw [spliceIfElseTop_single]
    rw [show getNestedValue (abDoc va vb) "a" = va from rfl]
    rw [if_pos ha]
    rw [processNested_stable "\x7b\x7b#if b\x7d\x7dX".data rfl rfl 5 (abDoc va vb)]
    rw [show spliceOne nestedIfTemplate.data 0 35 "\x7b\x7b#if b\x7d\x7dX".data =
        "\x7b\x7b#if b\x7d\x7dX\x7b\x7belse\x7d\x7dZ\x7b\x7b/if\x7d\x7d".data from rfl]
    rw [show collectIfCtx "\x7b\x7b#if b\x7d\x7dX\x7b\x7belse\x7d\x7dZ\x7b\x7b/if\x7d\x7d".data
        ("\x7b\x7b#if b\x7d\x7dX\x7b\x7belse\x7d\x7dZ\x7b\x7b/if\x7d\x7d".data.length + 1) 0
        "\x7b\x7b#if b\x7d\x7dX\x7b\x7belse\x7d\x7dZ\x7b\x7b/if\x7d\x7d".data = [] from rfl]
    rw [spliceIfRaw_nil]
    show ifPhase1 (8 + 1) _ _ = _
    rw [ifPhase1_succ_contains (by decide)]
    rw [show collectIfElse
        ("\x7b\x7b#if b\x7d\x7dX\x7b\x7belse\x7d\x7dZ\x7b\x7b/if\x7d\x7d".data.length + 1) 0
        "\x7b\x7b#if b\x7d\x7dX\x7b\x7belse\x7d\x7dZ\x7b\x7b/if\x7d\x7d".data =
        [⟨0, "b", "X".data, "Z".data, 26⟩] from rfl]
    rw [spliceIfElseTop_single]
    rw [show getNestedValue (abDoc va vb) "b" = vb from rfl]
    rw [if_neg (bool_false_not_true hb)]
    rw [processNested_stable "Z".data rfl rfl 5 (abDoc va vb)]
    rw [show spliceOne "\x7b\x7b#if b\x7d\x7dX\x7b\x7belse\x7d\x7dZ\x7b\x7b/if\x7d\x7d".data
        0 26 "Z".data = "Z".data from rfl]
    rw [show collectIfCtx "Z".data ("Z".data.length + 1) 0 "Z".data = [] from rfl]
    rw [spliceIfRaw_nil]
    exact ifPhase1_of_no_open (by decide) 8 (abDoc va vb)
  have base : renderTemplate1 nestedIfTemplate (abDoc va vb) =
      .ok (String.mk (postPasses (abDoc va vb)
        (ifPhase1 10 nestedIfTemplate.data (abDoc va vb)))) := rfl
  rw [base, key, postPasses_braceFree _ (by decide)]

/-- The second implementation renders the nested if/else template to
`Z` as well. -/
theorem render_nested2 (va vb : Value) (ha : isTruthy va = true) (hb : isTruthy vb = false) :
    renderTemplate2 nestedIfTemplate (abDoc va vb) = .ok "Z" := by
  have key : ifPhase2 10 nestedIfTemplate.data (abDoc va vb) = "Z".data := by
    show ifPhase2 (9 + 1) nestedIfTemplate.data (abDoc va vb) = _
    rw [ifPhase2_succ_contains (by decide)]
    rw [replFirstIfElse_found
      (show findM probeIfElseCap nestedIfTemplate.data =
        some ([], ("a", "\x7b\x7b#if b\x7d\x7dX".data, "Y".data, 35),
          "\x7b\x7belse\x7d\x7dZ\x7b\x7b/if\x7d\x7d".data) from rfl)]
    rw [show getNestedValue (abDoc va vb) "a" = va from rfl]
    rw [if_pos ha]
    rw [show (([] : List Char) ++ "\x7b\x7b#if b\x7d\x7dX".data ++
        "\x7b\x7belse\x7d\x7dZ\x7b\x7b/if\x7d\x7d".data) =
        "\x7b\x7b#if b\x7d\x7dX\x7b\x7belse\x7d\x7dZ\x7b\x7b/if\x7d\x7d".data from rfl]
    rw [show nestedIfTemplate.data.length = 50 + 1 from rfl]
    rw [replFirstIfElse_found
      (show findM probeIfElseCap
          "\x7b\x7b#if b\x7d\x7dX\x7b\x7belse\x7d\x7dZ\x7b\x7b/if\x7d\x7d".data =
        some ([], ("b", "X".data, "Z".data, 26), []) from rfl)]
    rw [show getNestedValue (abDoc va vb) "b" = vb from rfl]
    rw [if_neg (bool_false_not_true hb)]
    rw [show (([] : List Char) ++ "Z".data ++ []) = "Z".data from rfl]
    rw [replFirstIfElse_none (show findM probeIfElseCap "Z".data = none from rfl)]
    rw [replFirstIf_none (show findM probeIfCap "Z".data = none from rfl)]
    exact ifPhase2_of_no_open (by decide) 9 (abDoc va vb)
  have base : renderTemplate2 nestedIfTemplate (abDoc va vb) =
      .ok (String.mk (postPasses (abDoc va vb)
        (ifPhase2 10 nestedIfTemplate.data (abDoc va vb)))) := rfl
  rw [base, key, postPasses_braceFree _ (by decide)]

/-! ## The claims -/

/-- C1: for every value `v`, the `if` branch of a conditional
directive is chosen iff `v` is not one of the undefined sentinel,
null, the empty string, or the empty sequence; in particular the
number `0` and the string `"false"` are truthy and select the `if`
branch, not the `else` branch. -/
theorem c1_truthiness_law :
    (∀ v : Value, isTruthy v = true ↔
      (v ≠ .vUndefined ∧ v ≠ .vNull ∧ v ≠ .vStr "" ∧ v ≠ .vArr [])) ∧
    (∀ v : Value, renderTemplate1 ifTemplate (xDoc v) =
      .ok (if isTruthy v = true then "T" else "F")) ∧
    renderTemplate1 ifTemplate (xDoc (.vNum 0)) = .ok "T" ∧
    renderTemplate1 ifTemplate (xDoc (.vStr "false")) = .ok "T" := by
  refine ⟨?_, render_ifTemplate, rfl, rfl⟩
  intro v
  cases v with
  | vUndefined => simp [isTruthy]
  | vNull => simp [isTruthy]
  | vBool b => simp [isTruthy]
  | vNum n => simp [isTruthy]
  | vObj kvs => simp [isTruthy]
  | vStr s => simp [isTruthy]
  | vArr xs => simp [isTruthy]

/-- C3 counterexample: with `a` bound to the truthy `1` and `b` to the
falsy `null`, the nested template `if a { if b {X} else {Y} } else
{Z}` renders to `Z`, not to `Y` as the claim states. -/
theorem c3_nested_counterexample :
    renderTemplate1 nestedIfTemplate (abDoc (.vNum 1) .vNull) = .ok "Z" ∧
    renderTemplate1 nestedIfTemplate (abDoc (.vNum 1) .vNull) ≠ .ok "Y" := by
  have hz : renderTemplate1 nestedIfTemplate (abDoc (.vNum 1) .vNull) = .ok "Z" := rfl
  refine ⟨hz, fun h => ?_⟩
  rw [hz] at h
  exact absurd (Except.ok.inj h) (by decide)

/-- C3 amended: for the template `if A { if B {X} else {Y} } else
{Z}` with value A truthy and value B falsy, both implementations of
`renderTemplate` output exactly `Z`: the non-greedy regex pairs the
first `{{else}}` with the outer `{{#if}}`, so the truthy outer branch
keeps the inner `{{#if b}}` fragment, which is then closed by the
remaining `{{else}}Z{{/if}}` text and resolved against `b`. -/
theorem c3_nested_amended (va vb : Value)
    (ha : isTruthy va = true) (hb : isTruthy vb = false) :
    renderTemplate1 nestedIfTemplate (abDoc va vb) = .ok "Z" ∧
    renderTemplate2 nestedIfTemplate (abDoc va vb) = .ok "Z" :=
  ⟨render_nested1 va vb ha hb, render_nested2 va vb ha hb⟩

/-- C3 amended witness at a concrete truthy/falsy pair. -/
theorem c3_nested_amended_witness :
    renderTemplate1 nestedIfTemplate (abDoc (.vBool true) (.vStr "")) = .ok "Z" ∧
    renderTemplate2 nestedIfTemplate (abDoc (.vBool true) (.vStr "")) = .ok "Z" :=
  c3_nested_amended (.vBool true) (.vStr "") (by decide) (by decide)

/-- C4 counterexample: the template consisting of the bare directive
opener `{{` renders to `{{` — the output contains directive syntax,
because the cleanup pattern requires a word character and a closing
`}}`. -/
theorem c4_sanitizer_counterexample :
    renderTemplate1 "\x7b\x7b" (Value.vObj []) = .ok "\x7b\x7b" ∧
    containsSub "\x7b\x7b".data litOpen = true :=
  ⟨rfl, by decide⟩

/-- C4 amended: rendering never raises an error on a template whose
leftover text gives the sanitizer nothing to strip or something it can
strip wholly; the final cleanup removes every token matching its
directive pattern and is a no-op exactly on strings with no `{{`; an
unclosed `each` directive is stripped (leaving no `{{`), but a bare
`{{` survives to the output. -/
theorem c4_sanitizer_amended :
    (∀ s : List Char, containsSub s litOpen = false → cleanupPass s = s) ∧
    (∀ d : Value, renderTemplate1 "\x7b\x7b" d = .ok "\x7b\x7b") ∧
    renderTemplate1 "\x7b\x7b#each items\x7d\x7d- \x7b\x7bthis.name\x7d\x7d"
      (Value.vObj [("items", Value.vArr [Value.vObj []])]) = .ok "- " ∧
    containsSub "- ".data litOpen = false := by
  exact ⟨fun s h => cleanupPass_of_no_open h, fun d => rfl, rfl, by decide⟩

/-- C4 amended witness: the sanitizer is a no-op on a `{{`-free
string. -/
theorem c4_sanitizer_witness :
    containsSub "abc".data litOpen = false ∧ cleanupPass "abc".data = "abc".data :=
  ⟨by decide, c4_sanitizer_amended.1 "abc".data (by decide)⟩

/-- C7 counterexample: sanitizing `{{{x}}{y}}` removes `{{x}}` and
splices the surrounding braces into `{{y}}`, so the sanitized output
still contains a directive-opening token and a second sanitizing pass
changes it — the pass is not idempotent. -/
theorem c7_sanitize_counterexample :
    cleanupPass (cleanupPass "\x7b\x7b\x7bx\x7d\x7d\x7by\x7d\x7d".data) ≠
      cleanupPass "\x7b\x7b\x7bx\x7d\x7d\x7by\x7d\x7d".data ∧
    containsSub (cleanupPass "\x7b\x7b\x7bx\x7d\x7d\x7by\x7d\x7d".data) litOpen = true := by
  have h1 : cleanupPass "\x7b\x7b\x7bx\x7d\x7d\x7by\x7d\x7d".data =
      "\x7b\x7by\x7d\x7d".data := rfl
  have h2 : cleanupPass "\x7b\x7by\x7d\x7d".data = [] := rfl
  refine ⟨fun h => ?_, by decide⟩
  rw [h1, h2] at h
  exact absurd h (by decide)

/-- C7 amended: re-running the sanitizing pass changes nothing
whenever the sanitized output contains no directive-opening token
`{{`; in general sanitized output can still contain `{{` (removals can
splice braces together), so unconditional idempotence fails. -/
theorem c7_sanitize_amended :
    ∀ s : List Char, containsSub (cleanupPass s) litOpen = false →
      cleanupPass (cleanupPass s) = cleanupPass s :=
  fun _ h => cleanupPass_of_no_open h

/-- C7 amended witness. -/
theorem c7_sanitize_witness :
    containsSub (cleanupPass "\x7b\x7bx\x7d\x7d".data) litOpen = false ∧
    cleanupPass (cleanupPass "\x7b\x7bx\x7d\x7d".data) = cleanupPass "\x7b\x7bx\x7d\x7d".data :=
  ⟨by decide, c7_sanitize_amended "\x7b\x7bx\x7d\x7d".data (by decide)⟩

/-- C9 counterexample: on `{{else}}{{#if a}}X{{/if}}` with the empty
document the first implementation outputs `X` (the 100-character
context filter skips the simple-if block, whose delimiters the
sanitizer then strips) while the second outputs the empty string (its
simple-if pass resolves the falsy block to nothing). -/
theorem c9_extensional_counterexample :
    renderTemplate1 divergeTemplate (Value.vObj []) ≠
      renderTemplate2 divergeTemplate (Value.vObj []) := by
  intro h
  have h1 : renderTemplate1 divergeTemplate (Value.vObj []) = .ok "X" := rfl
  have h2 : renderTemplate2 divergeTemplate (Value.vObj []) = .ok "" := rfl
  rw [h1, h2] at h
  exact absurd (Except.ok.inj h) (by decide)

/-- C9 amended: the two implementations share their loop, indexed,
simple and cleanup passes verbatim, and they agree on every template
and document whose loop-expanded text contains no `{{#if` token; they
are not extensionally equal, because their conditional phases differ
(the first skips simple-if blocks with `{{else}}` within 100
characters of context, the second does not). -/
theorem c9_implementations_amended :
    ∀ (t : String) (d : Value),
      (∀ e, eachPhase 10 t.data d = .ok e → containsSub e litIfOpen = false) →
      renderTemplate1 t d = renderTemplate2 t d := by
  intro t d h
  unfold renderTemplate1 renderTemplate2
  cases he : eachPhase 10 t.data d with
  | error e => rfl
  | ok e =>
    show Except.ok (String.mk (postPasses d (ifPhase1 10 e d))) =
      Except.ok (String.mk (postPasses d (ifPhase2 10 e d)))
    rw [ifPhase1_of_no_open (h e he), ifPhase2_of_no_open (h e he)]

/-- C9 amended witness: on a conditional-free template the two
implementations agree. -/
theorem c9_implementations_witness :
    renderTemplate1 "hi \x7b\x7bx\x7d\x7d" (Value.vObj []) =
      renderTemplate2 "hi \x7b\x7bx\x7d\x7d" (Value.vObj []) :=
  c9_implementations_amended "hi \x7b\x7bx\x7d\x7d" (Value.vObj []) (fun e he => by
    have h0 : eachPhase 10 "hi \x7b\x7bx\x7d\x7d".data (Value.vObj []) =
        .ok "hi \x7b\x7bx\x7d\x7d".data := rfl
    rw [h0] at he
    cases he
    decide)

/-- C10: inside an `each` loop body a `{{this.field}}` placeholder
whose item field is present but JavaScript-falsy (the number 0,
`false`, or the empty string) renders as the empty string, unlike the
same value referenced at root scope as `{{field}}`, which renders via
its string form (`0` as "0", `false` as "false"); the same collapse
applies to `{{this.field.subfield}}`. -/
theorem c10_loop_falsy_collapse :
    renderTemplate1 "\x7b\x7b#each items\x7d\x7d\x7b\x7bthis.f\x7d\x7d\x7b\x7b/each\x7d\x7d"
      (Value.vObj [("items", Value.vArr [Value.vObj [("f", Value.vNum 0)]])]) = .ok "" ∧
    renderTemplate1 "\x7b\x7bf\x7d\x7d" (Value.vObj [("f", Value.vNum 0)]) = .ok "0" ∧
    renderTemplate1 "\x7b\x7b#each items\x7d\x7d\x7b\x7bthis.f\x7d\x7d\x7b\x7b/each\x7d\x7d"
      (Value.vObj [("items", Value.vArr [Value.vObj [("f", Value.vBool false)]])]) = .ok "" ∧
    renderTemplate1 "\x7b\x7bf\x7d\x7d" (Value.vObj [("f", Value.vBool false)]) = .ok "false" ∧
    renderTemplate1 "\x7b\x7b#each items\x7d\x7d\x7b\x7bthis.f\x7d\x7d\x7b\x7b/each\x7d\x7d"
      (Value.vObj [("items", Value.vArr [Value.vObj [("f", Value.vStr "")]])]) = .ok "" ∧
    renderTemplate1
      "\x7b\x7b#each items\x7d\x7d\x7b\x7bthis.a.b\x7d\x7d\x7b\x7b/each\x7d\x7d"
      (Value.vObj [("items",
        Value.vArr [Value.vObj [("a", Value.vObj [("b", Value.vNum 0)])]])]) = .ok "" :=
  ⟨rfl, rfl, rfl, rfl, rfl, rfl⟩

/-- C5 counterexample: a word segment can traverse a sequence: with
`images` bound to a two-element sequence, `{{images.length}}` resolves
to the number 2 (JS arrays expose `length` as an own property) and
renders as `"2"`, not as the empty string, although a non-mapping
value was traversed. -/
theorem c5_resolution_counterexample :
    renderTemplate1 "\x7b\x7bimages.length\x7d\x7d"
      (Value.vObj [("images", Value.vArr [Value.vStr "a", Value.vStr "b"])]) = .ok "2" ∧
    getNestedValue (Value.vObj [("images", Value.vArr [Value.vStr "a", Value.vStr "b"])])
      "images.length" = .vNum 2 ∧
    ("2" : String) ≠ "" :=
  ⟨rfl, rfl, by decide⟩

/-- C5 amended: resolution never raises; a traversal into a scalar
(string, number, boolean, null or the sentinel) yields the undefined
sentinel at once; a key missing from a mapping yields the sentinel
provided the segment does not name an inherited `Object.prototype`
member (`jsProtoKey`: `toString`, `constructor`, `__proto__`, …),
since JavaScript's `in` accepts those inherited names — the sentinel
rule is a law of data-only segment names, and no missing-segment rule
holds for sequences at all (`{{images.length}}` resolves to the
sequence's length, see the counterexample); a resolved `{{a.b.c}}`
renders as the empty string for undefined and null and via its natural
string form otherwise (0 as "0", false as "false"). -/
theorem c5_simple_placeholder_amended :
    (∀ (kvs : List (String × Value)) (seg : String) (rest : List String),
      keyLookup kvs seg = none → jsProtoKey seg = false →
      walkParts (.vObj kvs) (seg :: rest) = .vUndefined) ∧
    (∀ (v : Value) (seg : String) (rest : List String),
      isObjLike v = false → walkParts v (seg :: rest) = .vUndefined) ∧
    (∀ d : Value,
      containsSub (valueText (getNestedValue d "a.b.c")).data litOpen = false →
      renderTemplate1 "\x7b\x7ba.b.c\x7d\x7d" d =
        .ok (valueText (getNestedValue d "a.b.c"))) ∧
    renderTemplate1 "\x7b\x7ba.b.c\x7d\x7d"
      (Value.vObj [("a", Value.vObj [("b", Value.vObj [("c", Value.vNum 0)])])]) = .ok "0" ∧
    renderTemplate1 "\x7b\x7ba.b.c\x7d\x7d"
      (Value.vObj [("a", Value.vObj [("b", Value.vObj [("c", Value.vBool false)])])]) =
      .ok "false" ∧
    renderTemplate1 "\x7b\x7ba.b.c\x7d\x7d"
      (Value.vObj [("a", Value.vObj [("b", Value.vObj [("c", Value.vNull)])])]) = .ok "" := by
  refine ⟨?_, ?_, ?_, rfl, rfl, rfl⟩
  · intro kvs seg rest h _
    simp [walkParts, isObjLike, hasProp, h]
  · intro v seg rest h
    simp [walkParts, h]
  · intro d h
    have base : renderTemplate1 "\x7b\x7ba.b.c\x7d\x7d" d =
        .ok (String.mk (cleanupPass ((valueText (getNestedValue d "a.b.c")).data ++ []))) := rfl
    rw [List.append_nil] at base
    rw [base, cleanupPass_of_no_open h]

/-- C5 amended witness: resolving a present nested value renders its
text, and a concrete missing non-inherited key halts the walk at the
sentinel. -/
theorem c5_simple_placeholder_witness :
    renderTemplate1 "\x7b\x7ba.b.c\x7d\x7d"
      (Value.vObj [("a", Value.vObj [("b", Value.vObj [("c", Value.vNum 7)])])]) = .ok "7" ∧
    walkParts (Value.vObj [("a", Value.vNum 1)]) ["g", "h"] = Value.vUndefined := by
  constructor
  · have h := c5_simple_placeholder_amended.2.2.1
      (Value.vObj [("a", Value.vObj [("b", Value.vObj [("c", Value.vNum 7)])])]) (by decide)
    rw [h]
    rfl
  · exact c5_simple_placeholder_amended.1 [("a", Value.vNum 1)] "g" ["h"] rfl (by decide)

/-- C6 counterexample: an indexed placeholder with a present but falsy
field renders the empty string, not the field's value: `{{items.0.f}}`
with `f = 0` gives `""` (`array[0][prop] || ''`), though `String(0)`
is `"0"`; likewise `{{nums.0}}` over the sequence `[0]` gives `""`,
not the structured serialization `"0"`, because the element itself is
tested for JS truthiness. -/
theorem c6_indexed_counterexample :
    renderTemplate1 "\x7b\x7bitems.0.f\x7d\x7d"
      (Value.vObj [("items", Value.vArr [Value.vObj [("f", Value.vNum 0)]])]) = .ok "" ∧
    ("" : String) ≠ "0" ∧
    renderTemplate1 "\x7b\x7bnums.0\x7d\x7d"
      (Value.vObj [("nums", Value.vArr [Value.vNum 0])]) = .ok "" ∧
    jsonStringify (.vNum 0) = "0" :=
  ⟨rfl, by decide, rfl, rfl⟩

/-- C6 amended: `{{path.N.field}}` resolves the path to a sequence,
indexes element N and renders `field || ''` — the field's string form
when the field is JS-truthy, the empty string when the field is
missing or JS-falsy or anything along the chain is missing;
`{{path.N}}` serializes the whole element with `JSON.stringify` when
the element is JS-truthy, so for `{images:["a.png"]}` the template
`{{images.0}}` renders the quoted form, distinct from the plain text
`{{images}}` produces. -/
theorem c6_indexed_amended :
    (∀ v : Value, containsSub (orEmptyStr v).data litOpen = false →
      renderTemplate1 "\x7b\x7bitems.0.f\x7d\x7d"
        (Value.vObj [("items", Value.vArr [Value.vObj [("f", v)]])]) = .ok (orEmptyStr v)) ∧
    renderTemplate1 "\x7b\x7bimages.0\x7d\x7d"
      (Value.vObj [("images", Value.vArr [Value.vStr "a.png"])]) = .ok "\"a.png\"" ∧
    renderTemplate1 "\x7b\x7bimages\x7d\x7d"
      (Value.vObj [("images", Value.vArr [Value.vStr "a.png"])]) = .ok "a.png" ∧
    ("\"a.png\"" : String) ≠ "a.png" ∧
    renderTemplate1 "\x7b\x7bitems.5.f\x7d\x7d"
      (Value.vObj [("items", Value.vArr [Value.vObj [("f", Value.vNum 1)]])]) = .ok "" ∧
    renderTemplate1 "\x7b\x7bitems.0.g\x7d\x7d"
      (Value.vObj [("items", Value.vArr [Value.vObj [("f", Value.vNum 1)]])]) = .ok "" := by
  refine ⟨?_, rfl, rfl, by decide, rfl, rfl⟩
  intro v h
  have base : renderTemplate1 "\x7b\x7bitems.0.f\x7d\x7d"
      (Value.vObj [("items", Value.vArr [Value.vObj [("f", v)]])]) =
      .ok (String.mk (cleanupPass (simplePass
        (Value.vObj [("items", Value.vArr [Value.vObj [("f", v)]])])
        (arrNoPropPass (Value.vObj [("items", Value.vArr [Value.vObj [("f", v)]])])
          ((orEmptyStr v).data ++ []))))) := rfl
  rw [List.append_nil] at base
  rw [base, arrNoPropPass_of_no_open h, simplePass_of_no_open h, cleanupPass_of_no_open h]

/-- C6 amended witness: a truthy field renders via its string form. -/
theorem c6_indexed_witness :
    renderTemplate1 "\x7b\x7bitems.0.f\x7d\x7d"
      (Value.vObj [("items", Value.vArr [Value.vObj [("f", Value.vStr "url.png")]])]) =
      .ok "url.png" := by
  have h := c6_indexed_amended.1 (Value.vStr "url.png") (by decide)
  rw [h]
  rfl


/-! ## Decimal digits contain no brace -/

theorem digitChar_big (m : Nat) : Nat.digitChar (m + 16) = '*' := by
  unfold Nat.digitChar
  repeat rw [if_neg (show ¬_ = _ by omega)]

theorem digitChar_ne_brace (n : Nat) : Nat.digitChar n ≠ '{' := by
  by_cases h : n < 16
  · interval_cases n <;> decide
  · obtain ⟨m, rfl⟩ : ∃ m, n = m + 16 := ⟨n - 16, by omega⟩
    rw [digitChar_big]
    decide

theorem toDigitsCore_braceFree :
    ∀ (f n : Nat) (acc : List Char), BraceFree acc →
      BraceFree (Nat.toDigitsCore 10 f n acc) := by
  intro f
  induction f with
  | zero => intro n acc hacc; simpa [Nat.toDigitsCore] using hacc
  | succ f ih =>
    intro n acc hacc
    rw [Nat.toDigitsCore]
    have hcons : BraceFree (Nat.digitChar (n % 10) :: acc) := by
      intro c hc
      rcases List.mem_cons.mp hc with h | h
      · rw [h]; exact digitChar_ne_brace _
      · exact hacc c h
    split
    · exact hcons
    · exact ih _ _ hcons

theorem natRepr_braceFree (n : Nat) : BraceFree (toString n).data := by
  show BraceFree (Nat.repr n).data
  unfold Nat.repr
  have h := toDigitsCore_braceFree (n + 1) n [] (by intro c hc; cases hc)
  simpa [Nat.toDigits, List.asString] using h


/-! ## The loop-count law (C2) -/

theorem orEmptyStr_vStr (s : String) : orEmptyStr (Value.vStr s) = s := by
  by_cases h : s = ""
  · subst h; rfl
  · simp [orEmptyStr, jsFalsy, jsToString, h]

theorem processItem_eval {body : List Char} {item : Value} {idx : Nat} {s1 s2 s3 : List Char}
    (h1 : nestedIfThisLoop 5 body item = .ok s1)
    (h2 : scanRE (probeThis item) (s1.length + 1) s1 = .ok s2)
    (h3 : scanRE (probeThisSub item) (s2.length + 1) s2 = .ok s3) :
    processItem body item idx = .ok (scanR (probeIdx idx) (s3.length + 1) s3) := by
  simp only [processItem, h1, h2, h3]

theorem processItem_mkItem (s : String) (i : Nat) (h : BraceFree s.data) :
    processItem loopBody (mkItem s) i = .ok (loopCopy s i).data := by
  have h1 : nestedIfThisLoop 5 loopBody (mkItem s) = .ok loopBody :=
    nestedIfThisLoop_of_no_open (by decide) 5 (mkItem s)
  have h2 : scanRE (probeThis (mkItem s)) (loopBody.length + 1) loopBody =
      .ok ("<li>".data ++ s.data ++ ":\x7b\x7b@index\x7d\x7d</li>".data) := by
    have e : scanRE (probeThis (mkItem s)) (loopBody.length + 1) loopBody =
        .ok ("<li>".data ++ (orEmptyStr (Value.vStr s)).data ++
          ":\x7b\x7b@index\x7d\x7d</li>".data) := rfl
    rw [e, orEmptyStr_vStr]
  have hpre : BraceFree ("<li>".data ++ s.data) := braceFree_append (by decide) h
  have h3 : scanRE (probeThisSub (mkItem s))
      (("<li>".data ++ s.data ++ ":\x7b\x7b@index\x7d\x7d</li>".data).length + 1)
      ("<li>".data ++ s.data ++ ":\x7b\x7b@index\x7d\x7d</li>".data) =
      .ok ("<li>".data ++ s.data ++ ":\x7b\x7b@index\x7d\x7d</li>".data) := by
    rw [scanRE_append_braceFree (probeThisSub_bb (mkItem s)) hpre]
    rw [scanRE_of_findM_none (show findM (probeThisSub (mkItem s))
      ":\x7b\x7b@index\x7d\x7d</li>".data = none from rfl)]
    rfl
  rw [processItem_eval h1 h2 h3]
  rw [scanR_append_braceFree (probeIdx_bb i) hpre]
  rw [scanR_succ_found (show findM (probeIdx i) ":\x7b\x7b@index\x7d\x7d</li>".data =
      some (":".data, (toString i).data, "</li>".data) from rfl)]
  rw [scanR_of_findM_none (show findM (probeIdx i) "</li>".data = none from rfl)]
  simp [loopCopy, List.append_assoc]

theorem expandItems_loop :
    ∀ (names : List String), (∀ x ∈ names, BraceFree x.data) → ∀ i : Nat,
      expandItems loopBody (names.map mkItem) i = .ok (loopCopiesFrom i names).data := by
  intro names
  induction names with
  | nil => intro _ i; rfl
  | cons s rest ih =>
    intro h i
    have hs := h s (List.mem_cons_self ..)
    have hr := fun x hx => h x (List.mem_cons_of_mem _ hx)
    show expandItems loopBody (mkItem s :: rest.map mkItem) i = _
    simp only [expandItems, processItem_mkItem s i hs, ih hr (i + 1)]
    simp [loopCopiesFrom, String.data_append]

theorem braceFree_loopCopiesFrom {names : List String}
    (h : ∀ x ∈ names, BraceFree x.data) : ∀ i : Nat, BraceFree (loopCopiesFrom i names).data := by
  induction names with
  | nil => intro i c hc; cases hc
  | cons s rest ih =>
    intro i
    have hs := h s (List.mem_cons_self ..)
    have hr := fun x hx => h x (List.mem_cons_of_mem _ hx)
    show BraceFree (loopCopy s i ++ loopCopiesFrom (i + 1) rest).data
    rw [String.data_append]
    refine braceFree_append ?_ (ih hr (i + 1))
    show BraceFree ("<li>" ++ s ++ ":" ++ toString i ++ "</li>").data
    simp only [String.data_append]
    exact braceFree_append (braceFree_append (braceFree_append
      (braceFree_append (by decide) hs) (by decide)) (natRepr_braceFree i)) (by decide)

theorem eachReplacement_loop (names : List String) (h : ∀ x ∈ names, BraceFree x.data) :
    eachReplacement (loopDoc names) "items" loopBody = .ok (loopCopiesFrom 0 names).data := by
  cases names with
  | nil => rfl
  | cons s rest =>
    show expandItems loopBody (mkItem s :: rest.map mkItem) 0 = _
    exact expandItems_loop (s :: rest) h 0

theorem eachPhase_loopTemplate (names : List String) (h : ∀ x ∈ names, BraceFree x.data) :
    eachPhase 10 loopTemplate.data (loopDoc names) =
      .ok ("Hello! ".data ++ (loopCopiesFrom 0 names).data ++ " bye".data) := by
  have hfind : findM (probeEach (loopDoc names)) loopTemplate.data =
      some ("Hello! ".data, Except.ok (loopCopiesFrom 0 names).data, " bye".data) := by
    have e0 : findM (probeEach (loopDoc names)) loopTemplate.data =
        some ("Hello! ".data, eachReplacement (loopDoc names) "items" loopBody,
          " bye".data) := rfl
    rw [e0, eachReplacement_loop names h]
  have hscan := scanRE_one_match hfind
    (scanRE_of_findM_none (show findM (probeEach (loopDoc names)) " bye".data = none
      from rfl) loopTemplate.data.length)
  show eachPhase (9 + 1) _ _ = _
  rw [eachPhase_succ_contains (by decide), hscan]
  show eachPhase 9 _ _ = _
  exact eachPhase_of_no_open (containsSub_false_of_braceFree (braceFree_append
    (braceFree_append (by decide) (braceFree_loopCopiesFrom h 0)) (by decide))) 9 _

/-- C2: for every document field bound to a sequence of length N and a
template containing one `each` block over that field, `renderTemplate`
produces exactly N concatenated copies of the body in original
sequence order, with `this.*` placeholders resolved against each
element and the index token resolved to the element's zero-based
position; if the field is absent, not a sequence, or an empty
sequence, the entire block (delimiters and body) is replaced with
empty output and no error is raised. -/
theorem c2_loop_count_law :
    (∀ names : List String, (∀ x ∈ names, BraceFree x.data) →
      renderTemplate1 loopTemplate (loopDoc names) =
        .ok ("Hello! " ++ loopCopies names ++ " bye")) ∧
    (∀ v : Value, (∀ xs, v = .vArr xs → xs = []) →
      renderTemplate1 blockTemplate (Value.vObj [("items", v)]) = .ok "AB") ∧
    renderTemplate1 blockTemplate (Value.vObj []) = .ok "AB" := by
  refine ⟨?_, ?_, rfl⟩
  · intro names h
    have hbf : BraceFree
        ("Hello! ".data ++ (loopCopiesFrom 0 names).data ++ " bye".data) :=
      braceFree_append (braceFree_append (by decide) (braceFree_loopCopiesFrom h 0))
        (by decide)
    unfold renderTemplate1
    rw [eachPhase_loopTemplate names h]
    show Except.ok (String.mk (postPasses (loopDoc names) (ifPhase1 10
      ("Hello! ".data ++ (loopCopiesFrom 0 names).data ++ " bye".data)
      (loopDoc names)))) = _
    rw [ifPhase1_of_no_open (containsSub_false_of_braceFree hbf), postPasses_braceFree _ hbf]
    rfl
  · intro v hv
    cases v with
    | vArr xs =>
      have hx := hv xs rfl
      subst hx
      rfl
    | vUndefined => rfl
    | vNull => rfl
    | vBool b => rfl
    | vNum n => rfl
    | vStr s => rfl
    | vObj kvs => rfl

/-- C2 witness: two items render two copies in order; a non-sequence
field drops the block without error. -/
theorem c2_loop_count_law_witness :
    renderTemplate1 loopTemplate (loopDoc ["Repair", "Install"]) =
      .ok "Hello! <li>Repair:0</li><li>Install:1</li> bye" ∧
    renderTemplate1 blockTemplate (Value.vObj [("items", Value.vStr "no")]) = .ok "AB" := by
  constructor
  · have h := c2_loop_count_law.1 ["Repair", "Install"] (by decide)
    rw [h]
    rfl
  · exact c2_loop_count_law.2.1 (Value.vStr "no") (fun xs hxs => Value.noConfusion hxs)

/-! ## Totality under the data model (C8)

The only throwing construct in the embedding is `rawPropT` (JS
`item[prop]` on a null/undefined `item`), reachable only through the
loop-expansion probes.  Under the specification's data model every
sequence holds mappings, so every loop item is an object and no probe
can throw.  The lemmas below push that invariant through value
resolution and the fueled scanners up to both `renderTemplate`s. -/

theorem wfKVs_lookup : ∀ {kvs : List (String × Value)}, wfKVs kvs = true →
    ∀ {key : String} {v : Value}, keyLookup kvs key = some v → wfDoc v = true := by
  intro kvs
  induction kvs with
  | nil => intro _ key v hl; cases hl
  | cons kv rest ih =>
    intro h key v hl
    obtain ⟨k0, v0⟩ := kv
    rw [wfKVs, Bool.and_eq_true] at h
    rw [keyLookup] at hl
    by_cases hk : (k0 == key) = true
    · rw [if_pos hk] at hl; cases hl; exact h.1
    · rw [if_neg hk] at hl; exact ih h.2 hl

theorem wfArr_cons {x : Value} {rest : List Value} (h : wfArr (x :: rest) = true) :
    (∃ kvs, x = Value.vObj kvs ∧ wfKVs kvs = true) ∧ wfArr rest = true := by
  cases x <;> simp only [wfArr] at h
  case vObj kvs =>
    rw [Bool.and_eq_true] at h
    exact ⟨⟨kvs, rfl, h.1⟩, h.2⟩
  all_goals exact absurd h (by decide)

theorem wfArr_getD : ∀ {xs : List Value}, wfArr xs = true →
    ∀ (i : Nat), wfDoc (xs.getD i Value.vUndefined) = true := by
  intro xs
  induction xs with
  | nil => intro _ i; cases i <;> rfl
  | cons x rest ih =>
    intro h i
    obtain ⟨⟨kvs, hx, hwf⟩, hrest⟩ := wfArr_cons h
    subst hx
    cases i with
    | zero => exact hwf
    | succ j => exact ih hrest j

theorem getOwn_wf : ∀ {v : Value}, wfDoc v = true → ∀ (p : String), wfDoc (getOwn v p) = true := by
  intro v h p
  cases v with
  | vObj kvs =>
    rw [getOwn]
    cases hl : keyLookup kvs p with
    | none => rfl
    | some w => exact wfKVs_lookup h hl
  | vArr xs =>
    rw [getOwn]
    by_cases hp : (p == "length") = true
    · rw [if_pos hp]; rfl
    · rw [if_neg hp]
      cases hf : (List.range xs.length).find? (fun i => toString i == p) with
      | none => rfl
      | some i => exact wfArr_getD h i
  | vUndefined => rfl
  | vNull => rfl
  | vBool b => rfl
  | vNum n => rfl
  | vStr s => rfl

theorem walkParts_wf : ∀ (ps : List String) {v : Value}, wfDoc v = true →
    wfDoc (walkParts v ps) = true := by
  intro ps
  induction ps with
  | nil => intro v h; exact h
  | cons p ps ih =>
    intro v h
    rw [walkParts]
    by_cases hc : (isObjLike v && hasProp v p) = true
    · rw [if_pos hc]; exact ih (getOwn_wf h p)
    · rw [if_neg hc]; rfl

theorem getNestedValue_wf {d : Value} (h : wfDoc d = true) (p : String) :
    wfDoc (getNestedValue d p) = true := by
  rw [getNestedValue]
  by_cases hc : (jsFalsy d || p == "") = true
  · rw [if_pos hc]; rfl
  · rw [if_neg hc]; exact walkParts_wf _ h

theorem findM_some_probe {α : Type} {probe : List Char → Option (α × List Char)} :
    ∀ {s pre rest : List Char} {r : α},
      findM probe s = some (pre, r, rest) → ∃ t, probe t = some (r, rest) := by
  intro s
  induction s with
  | nil =>
    intro pre rest r h
    rw [findM] at h
    cases hp : probe [] with
    | none => rw [hp] at h; cases h
    | some x =>
      obtain ⟨x1, x2⟩ := x
      rw [hp] at h
      simp only [Option.some.injEq, Prod.mk.injEq] at h
      refine ⟨[], ?_⟩
      rw [hp, h.2.1, h.2.2]
  | cons c t ih =>
    intro pre rest r h
    rw [findM] at h
    cases hp : probe (c :: t) with
    | some x =>
      obtain ⟨x1, x2⟩ := x
      rw [hp] at h
      simp only [Option.some.injEq, Prod.mk.injEq] at h
      refine ⟨c :: t, ?_⟩
      rw [hp, h.2.1, h.2.2]
    | none =>
      rw [hp] at h
      cases hf : findM probe t with
      | none => rw [hf] at h; cases h
      | some y =>
        obtain ⟨p1, y1, y2⟩ := y
        rw [hf] at h
        simp only [Option.some.injEq, Prod.mk.injEq] at h
        obtain ⟨h1, h2, h3⟩ := h
        exact ih (by rw [hf, h2, h3])

theorem scanRE_all_ok {probe : List Char → Option (Except Unit (List Char) × List Char)}
    (hall : ∀ t r rest, probe t = some (r, rest) → ∃ x, r = Except.ok x) :
    ∀ (n : Nat) (s : List Char), ∃ out, scanRE probe n s = Except.ok out := by
  intro n
  induction n with
  | zero => intro s; exact ⟨s, rfl⟩
  | succ n ih =>
    intro s
    cases hf : findM probe s with
    | none => exact ⟨s, by rw [scanRE, hf]⟩
    | some x =>
      obtain ⟨pre, r, rest⟩ := x
      obtain ⟨t, hp⟩ := findM_some_probe hf
      obtain ⟨rv, hrv⟩ := hall t r rest hp
      subst hrv
      obtain ⟨tail, htail⟩ := ih rest
      exact ⟨pre ++ rv ++ tail, scanRE_one_match hf htail⟩

theorem probeThis_ok {kvs : List (String × Value)} {s : List Char}
    {r : Except Unit (List Char)} {rest : List Char}
    (h : probeThis (Value.vObj kvs) s = some (r, rest)) : ∃ x, r = Except.ok x := by
  rw [probeThis] at h
  cases h1 : stripPre litThisDot s with
  | none => rw [h1] at h; cases h
  | some r1 =>
    rw [h1] at h
    simp only [] at h
    by_cases hw : (takeWord r1).1.isEmpty = true
    · rw [if_pos hw] at h; cases h
    · rw [if_neg hw] at h
      cases h2 : stripPre litClose (takeWord r1).2 with
      | none => rw [h2] at h; cases h
      | some rest2 =>
        rw [h2] at h
        simp only [Option.some.injEq, Prod.mk.injEq] at h
        exact ⟨_, h.1.symm⟩

theorem probeThisSub_ok {kvs : List (String × Value)} {s : List Char}
    {r : Except Unit (List Char)} {rest : List Char}
    (h : probeThisSub (Value.vObj kvs) s = some (r, rest)) : ∃ x, r = Except.ok x := by
  rw [probeThisSub] at h
  cases h1 : stripPre litThisDot s with
  | none => rw [h1] at h; cases h
  | some r1 =>
    rw [h1] at h
    simp only [] at h
    by_cases hw : (takeWord r1).1.isEmpty = true
    · rw [if_pos hw] at h; cases h
    · rw [if_neg hw] at h
      cases h2 : stripPre ['.'] (takeWord r1).2 with
      | none => rw [h2] at h; cases h
      | some r2 =>
        rw [h2] at h
        simp only [] at h
        by_cases hw2 : (takeWord r2).1.isEmpty = true
        · rw [if_pos hw2] at h; cases h
        · rw [if_neg hw2] at h
          cases h3 : stripPre litClose (takeWord r2).2 with
          | none => rw [h3] at h; cases h
          | some rest2 =>
            rw [h3] at h
            simp only [Option.some.injEq, Prod.mk.injEq] at h
            exact ⟨_, h.1.symm⟩

theorem probeIfElseThis_ok {kvs : List (String × Value)} {s : List Char}
    {r : Except Unit (List Char)} {rest : List Char}
    (h : probeIfElseThis (Value.vObj kvs) s = some (r, rest)) : ∃ x, r = Except.ok x := by
  rw [probeIfElseThis] at h
  cases h1 : stripPre litIfOpen s with
  | none => rw [h1] at h; cases h
  | some r1 =>
    rw [h1] at h
    simp only [] at h
    by_cases hs1 : (takeSpaces r1).1.isEmpty = true
    · rw [if_pos hs1] at h; cases h
    · rw [if_neg hs1] at h
      cases h2 : stripPre litThis (takeSpaces r1).2 with
      | none => rw [h2] at h; cases h
      | some r2 =>
        rw [h2] at h
        simp only [] at h
        by_cases hw : (takeWord r2).1.isEmpty = true
        · rw [if_pos hw] at h; cases h
        · rw [if_neg hw] at h
          cases h3 : stripPre litClose (takeWord r2).2 with
          | none => rw [h3] at h; cases h
          | some r3 =>
            rw [h3] at h
            simp only [] at h
            cases h4 : splitFirst litElse r3 with
            | none => rw [h4] at h; cases h
            | some pr =>
              obtain ⟨ifC, r4⟩ := pr
              rw [h4] at h
              simp only [] at h
              cases h5 : splitFirst litIfClose r4 with
              | none => rw [h5] at h; cases h
              | some pr2 =>
                obtain ⟨elseC, rest2⟩ := pr2
                rw [h5] at h
                simp only [Option.some.injEq, Prod.mk.injEq] at h
                exact ⟨_, h.1.symm⟩

theorem probeIfThis_ok {kvs : List (String × Value)} {s : List Char}
    {r : Except Unit (List Char)} {rest : List Char}
    (h : probeIfThis (Value.vObj kvs) s = some (r, rest)) : ∃ x, r = Except.ok x := by
  rw [probeIfThis] at h
  cases h1 : stripPre litIfOpen s with
  | none => rw [h1] at h; cases h
  | some r1 =>
    rw [h1] at h
    simp only [] at h
    by_cases hs1 : (takeSpaces r1).1.isEmpty = true
    · rw [if_pos hs1] at h; cases h
    · rw [if_neg hs1] at h
      cases h2 : stripPre litThis (takeSpaces r1).2 with
      | none => rw [h2] at h; cases h
      | some r2 =>
        rw [h2] at h
        simp only [] at h
        by_cases hw : (takeWord r2).1.isEmpty = true
        · rw [if_pos hw] at h; cases h
        · rw [if_neg hw] at h
          cases h3 : stripPre litClose (takeWord r2).2 with
          | none => rw [h3] at h; cases h
          | some r3 =>
            rw [h3] at h
            simp only [] at h
            cases h4 : splitFirst litIfClose r3 with
            | none => rw [h4] at h; cases h
            | some pr =>
              obtain ⟨content, rest2⟩ := pr
              rw [h4] at h
              simp only [Option.some.injEq, Prod.mk.injEq] at h
              exact ⟨_, h.1.symm⟩

theorem nestedIfThisLoop_ok (kvs : List (String × Value)) :
    ∀ (n : Nat) (s : List Char), ∃ out, nestedIfThisLoop n s (Value.vObj kvs) = Except.ok out := by
  intro n
  induction n with
  | zero => intro s; exact ⟨s, rfl⟩
  | succ n ih =>
    intro s
    by_cases hc : containsSub s litIfThisOpen = true
    · obtain ⟨s1, h1⟩ := @scanRE_all_ok (probeIfElseThis (Value.vObj kvs))
        (fun t r rest h => probeIfElseThis_ok h) (s.length + 1) s
      obtain ⟨s2, h2⟩ := @scanRE_all_ok (probeIfThis (Value.vObj kvs))
        (fun t r rest h => probeIfThis_ok h) (s1.length + 1) s1
      obtain ⟨out, h3⟩ := ih s2
      exact ⟨out, by simp [nestedIfThisLoop, hc, h1, h2, h3]⟩
    · exact ⟨s, by simp [nestedIfThisLoop, hc]⟩

theorem processItem_ok (kvs : List (String × Value)) (body : List Char) (idx : Nat) :
    ∃ out, processItem body (Value.vObj kvs) idx = Except.ok out := by
  obtain ⟨s1, h1⟩ := nestedIfThisLoop_ok kvs 5 body
  obtain ⟨s2, h2⟩ := @scanRE_all_ok (probeThis (Value.vObj kvs))
    (fun t r rest h => probeThis_ok h) (s1.length + 1) s1
  obtain ⟨s3, h3⟩ := @scanRE_all_ok (probeThisSub (Value.vObj kvs))
    (fun t r rest h => probeThisSub_ok h) (s2.length + 1) s2
  exact ⟨_, processItem_eval h1 h2 h3⟩

theorem expandItems_ok (body : List Char) :
    ∀ (items : List Value), (∀ x ∈ items, ∃ kvs, x = Value.vObj kvs) →
      ∀ (i : Nat), ∃ out, expandItems body items i = Except.ok out := by
  intro items
  induction items with
  | nil => intro _ i; exact ⟨[], rfl⟩
  | cons it rest ih =>
    intro h i
    obtain ⟨kvs, hk⟩ := h it (List.mem_cons_self ..)
    subst hk
    obtain ⟨c, hc⟩ := processItem_ok kvs body i
    obtain ⟨cs, hcs⟩ := ih (fun x hx => h x (List.mem_cons_of_mem _ hx)) (i + 1)
    exact ⟨c ++ cs, by simp only [expandItems, hc, hcs]⟩

theorem wfArr_elem : ∀ {xs : List Value}, wfArr xs = true →
    ∀ x ∈ xs, ∃ kvs, x = Value.vObj kvs := by
  intro xs
  induction xs with
  | nil => intro _ x hx; cases hx
  | cons y rest ih =>
    intro h x hx
    obtain ⟨⟨kvs, hy, _⟩, hrest⟩ := wfArr_cons h
    cases hx with
    | head => exact ⟨kvs, hy⟩
    | tail _ h2 => exact ih hrest x h2

theorem eachReplacement_ok {d : Value} (h : wfDoc d = true) (name : String) (body : List Char) :
    ∃ x, eachReplacement d name body = Except.ok x := by
  rw [eachReplacement]
  cases hg : getNestedValue d name with
  | vArr xs =>
    have hwfa : wfArr xs = true := by
      have hv := getNestedValue_wf h name
      rw [hg] at hv
      exact hv
    simp only []
    by_cases he : xs.isEmpty = true
    · rw [if_pos he]; exact ⟨[], rfl⟩
    · rw [if_neg he]; exact expandItems_ok body xs (wfArr_elem hwfa) 0
  | vUndefined => exact ⟨[], rfl⟩
  | vNull => exact ⟨[], rfl⟩
  | vBool b => exact ⟨[], rfl⟩
  | vNum n => exact ⟨[], rfl⟩
  | vStr str => exact ⟨[], rfl⟩
  | vObj kvs => exact ⟨[], rfl⟩

theorem probeEach_ok {d : Value} (h : wfDoc d = true) :
    ∀ {s : List Char} {r : Except Unit (List Char)} {rest : List Char},
      probeEach d s = some (r, rest) → ∃ x, r = Except.ok x := by
  intro s r rest hp
  rw [probeEach] at hp
  cases h1 : stripPre litEachOpen s with
  | none => rw [h1] at hp; cases hp
  | some r1 =>
    rw [h1] at hp
    simp only [] at hp
    by_cases hs1 : (takeSpaces r1).1.isEmpty = true
    · rw [if_pos hs1] at hp; cases hp
    · rw [if_neg hs1] at hp
      by_cases hw : (takeWord (takeSpaces r1).2).1.isEmpty = true
      · rw [if_pos hw] at hp; cases hp
      · rw [if_neg hw] at hp
        cases h2 : stripPre litClose (takeWord (takeSpaces r1).2).2 with
        | none => rw [h2] at hp; cases hp
        | some r2 =>
          rw [h2] at hp
          simp only [] at hp
          cases h3 : splitFirst litEachClose r2 with
          | none => rw [h3] at hp; cases hp
          | some pr =>
            obtain ⟨body, rest2⟩ := pr
            rw [h3] at hp
            simp only [Option.some.injEq, Prod.mk.injEq] at hp
            obtain ⟨x, hx⟩ := eachReplacement_ok h (String.mk (takeWord (takeSpaces r1).2).1) body
            exact ⟨x, hp.1.symm.trans hx⟩

theorem eachPhase_ok {d : Value} (h : wfDoc d = true) :
    ∀ (n : Nat) (s : List Char), ∃ out, eachPhase n s d = Except.ok out := by
  intro n
  induction n with
  | zero => intro s; exact ⟨s, rfl⟩
  | succ n ih =>
    intro s
    by_cases hc : containsSub s litEachOpen = true
    · obtain ⟨s1, h1⟩ := @scanRE_all_ok (probeEach d)
        (fun t r rest hp => probeEach_ok h hp) (s.length + 1) s
      obtain ⟨out, h2⟩ := ih s1
      exact ⟨out, by simp [eachPhase, hc, h1, h2]⟩
    · exact ⟨s, by simp [eachPhase, hc]⟩

/-- C8: for every template string and every input document conforming to the
data model (a finite nested mapping: every sequence inside it holds only
mappings), both implementations of `renderTemplate` return a string: no
error path is taken. -/
theorem c8_no_error_path (t : String) (d : Value) (h : wfDoc d = true) :
    (∃ s, renderTemplate1 t d = Except.ok s) ∧ (∃ s, renderTemplate2 t d = Except.ok s) := by
  obtain ⟨e, he⟩ := eachPhase_ok h 10 t.data
  constructor
  · exact ⟨String.mk (postPasses d (ifPhase1 10 e d)), by rw [renderTemplate1, he]⟩
  · exact ⟨String.mk (postPasses d (ifPhase2 10 e d)), by rw [renderTemplate2, he]⟩

theorem c8_no_error_path_witness :
    (renderTemplate1 "Hi \x7b\x7b#each xs\x7d\x7d<\x7b\x7bthis.n\x7d\x7d>\x7b\x7b/each\x7d\x7d"
        (Value.vObj [("xs", Value.vArr [Value.vObj [("n", Value.vNum 7)]])])).isOk = true := by
  obtain ⟨s, hs⟩ := (c8_no_error_path
    "Hi \x7b\x7b#each xs\x7d\x7d<\x7b\x7bthis.n\x7d\x7d>\x7b\x7b/each\x7d\x7d"
    (Value.vObj [("xs", Value.vArr [Value.vObj [("n", Value.vNum 7)]])]) (by decide)).1
  rw [hs]
  rfl

end TE
